import Mathlib

/-!
Verification of the msync file-tree synchronization engine
(package `pkg/sync`, file `sync.go`).

The Go code is shallowly embedded as follows.

* Relative paths are lists of path components (`List String`); the Go code
  manipulates slash-separated strings produced by `filepath.Rel` and consumed
  by `filepath.Join`, which correspond exactly to component lists.
* `FileInfo`, `Options` and `Stats` mirror the Go structs of the same names.
  Sizes and modification times are natural numbers; `time.Time.After`
  becomes `<` on `Nat`.  The Go code stores checksums as strings with `""`
  meaning "not computed", and the embedding keeps that convention.
* A scanned directory tree (the result of `buildFileMap`) is an association
  list `List FileInfo` keyed by the `Path` field, mirroring Go's
  `map[string]FileInfo`.  The destination directory itself is modelled by
  such a map: copying a file inserts its entry, `os.RemoveAll` removes every
  entry at or below a path.  Go map iteration order is arbitrary; the model
  iterates association lists in list order and states order hypotheses
  (`AncestorsFirst`, satisfied by the walk order of `filepath.Walk`)
  explicitly where a claim needs them.
* The worker pool of `processFiles` is sequentialized: workers only share
  the mutex-guarded `Stats` and the read-only scan maps, and the claims
  under verification are about the final state.
* Each physical operation (stat/mkdir/copy, chtimes, RemoveAll) may fail in
  Go; the model takes failure oracles (`Env`) deciding per path whether the
  operation fails, and a clock `now` supplying timestamps the Go code reads
  from the running system.
-/

namespace MSync

/-- Embeds the Go struct `FileInfo` of sync.go (path, size, mtime, optional
checksum with `""` for "absent", directory flag). -/
structure FileInfo where
  Path : List String
  Size : Nat
  ModTime : Nat
  Checksum : String
  IsDir : Bool
deriving Repr, DecidableEq

/-- Embeds the Go struct `Options` (fields not used by the verified claims,
such as `Verbose` and the GPG key material, are omitted; `Method` stays a
string because the Go switch treats every unknown method like `mtime`). -/
structure Options where
  Checksum : Bool
  DryRun : Bool
  Recursive : Bool
  Delete : Bool
  Method : String
  SkipBrokenLinks : Bool
deriving Repr, DecidableEq

/-- Embeds the Go struct `Stats`. -/
structure Stats where
  FilesChecked : Nat
  FilesCopied : Nat
  FilesDeleted : Nat
  BytesCopied : Nat
  BytesDeleted : Nat
  DirsCreated : Nat
  Errors : List String
  FilesToCopy : Nat
  FilesToDelete : Nat
  BytesToCopy : Nat
  BytesToDelete : Nat
  DirsToCreate : Nat
deriving Repr, DecidableEq

/-- The all-zero statistics record a fresh `Syncer` starts with. -/
def Stats.empty : Stats := ⟨0, 0, 0, 0, 0, 0, [], 0, 0, 0, 0, 0⟩

/-- Failure oracles for the physical filesystem operations, plus the wall
clock.  `pfail` makes the stat/mkdir/copy step of an entry fail, `tfail`
makes `os.Chtimes` fail, `dfail` makes `os.RemoveAll` fail; `now` is the
timestamp the filesystem assigns when the Go code does not set one. -/
structure Env where
  pfail : List String → Bool
  tfail : List String → Bool
  dfail : List String → Bool
  now : Nat

/-- The environment in which every physical operation succeeds. -/
def noFailEnv : Env := ⟨fun _ => false, fun _ => false, fun _ => false, 0⟩

/-! ### Association-list maps keyed by `Path` -/

/-- Reading Go's `destFiles[sourceFile.Path]`: first entry with the given
path. -/
def lookupFM (m : List FileInfo) (p : List String) : Option FileInfo :=
  m.find? (fun f => f.Path = p)

/-- Go's map assignment `files[relPath] = fileInfo`: any previous binding of
the path is replaced. -/
def insertFM (f : FileInfo) (m : List FileInfo) : List FileInfo :=
  f :: m.filter (fun g => ¬ g.Path = f.Path)

/-- `os.RemoveAll` at relative path `p`: removes the entry at `p` and every
entry below it. -/
def removeAll (p : List String) (m : List FileInfo) : List FileInfo :=
  m.filter (fun f => ¬ p <+: f.Path)

/-- The set (as a list) of relative paths bound in a scan map. -/
def pathsOf (m : List FileInfo) : List (List String) :=
  m.map FileInfo.Path

theorem lookupFM_nil (p : List String) : lookupFM [] p = none := rfl

theorem lookupFM_cons (f : FileInfo) (m : List FileInfo) (p : List String) :
    lookupFM (f :: m) p = if f.Path = p then some f else lookupFM m p := by
  by_cases h : f.Path = p
  · simp [lookupFM, List.find?_cons_of_pos, h]
  · rw [if_neg h]
    exact List.find?_cons_of_neg _ (by simpa using h)

theorem lookupFM_isSome_iff (m : List FileInfo) (p : List String) :
    (lookupFM m p).isSome ↔ p ∈ pathsOf m := by
  induction m with
  | nil => simp [lookupFM_nil, pathsOf]
  | cons f m ih =>
    rw [lookupFM_cons]
    by_cases h : f.Path = p
    · simp [h, pathsOf]
    · simp only [if_neg h, ih, pathsOf, List.map_cons, List.mem_cons]
      constructor
      · exact Or.inr
      · rintro (hc | hc)
        · exact absurd hc.symm h
        · exact hc

theorem lookupFM_eq_none_iff (m : List FileInfo) (p : List String) :
    lookupFM m p = none ↔ p ∉ pathsOf m := by
  rw [← lookupFM_isSome_iff]
  cases lookupFM m p <;> simp

theorem lookupFM_mem {m : List FileInfo} {p : List String} {f : FileInfo}
    (h : lookupFM m p = some f) : f ∈ m ∧ f.Path = p := by
  refine ⟨List.mem_of_find?_eq_some h, ?_⟩
  have := List.find?_some h
  simpa using this

theorem lookupFM_self {m : List FileInfo} (hn : (pathsOf m).Nodup)
    {f : FileInfo} (hf : f ∈ m) : lookupFM m f.Path = some f := by
  induction m with
  | nil => cases hf
  | cons g m ih =>
    rw [lookupFM_cons]
    rcases List.mem_cons.mp hf with rfl | hf
    · simp
    · have hne : ¬ g.Path = f.Path := by
        intro he
        have : f.Path ∈ pathsOf m := List.mem_map_of_mem _ hf
        rw [pathsOf, List.map_cons, List.nodup_cons] at hn
        exact hn.1 (he ▸ this)
      rw [if_neg hne]
      exact ih (by
        rw [pathsOf, List.map_cons, List.nodup_cons] at hn
        exact hn.2) hf

theorem lookupFM_insertFM (f : FileInfo) (m : List FileInfo) (q : List String) :
    lookupFM (insertFM f m) q = if q = f.Path then some f else lookupFM m q := by
  rw [insertFM, lookupFM_cons]
  by_cases h : f.Path = q
  · simp [h]
  · rw [if_neg h, if_neg (fun he => h he.symm)]
    induction m with
    | nil => rfl
    | cons g m ih =>
      by_cases hg : g.Path = f.Path
      · have h1 : List.filter (fun g => decide ¬ g.Path = f.Path) (g :: m) =
            List.filter (fun g => decide ¬ g.Path = f.Path) m := by
          simp [List.filter_cons, hg]
        rw [h1, ih, lookupFM_cons, if_neg (by rw [hg]; exact h)]
      · have h1 : List.filter (fun g => decide ¬ g.Path = f.Path) (g :: m) =
            g :: List.filter (fun g => decide ¬ g.Path = f.Path) m := by
          simp [List.filter_cons, hg]
        rw [h1, lookupFM_cons, lookupFM_cons]
        by_cases hq : g.Path = q
        · simp [hq]
        · rw [if_neg hq, if_neg hq]
          exact ih

theorem lookupFM_removeAll (p : List String) (m : List FileInfo) (q : List String) :
    lookupFM (removeAll p m) q = if p <+: q then none else lookupFM m q := by
  induction m with
  | nil => simp [removeAll, lookupFM_nil]
  | cons f m ih =>
    by_cases hf : p <+: f.Path
    · have h1 : removeAll p (f :: m) = removeAll p m := by
        simp [removeAll, List.filter_cons, hf]
      rw [h1, ih]
      by_cases hq : p <+: q
      · simp [hq]
      · rw [if_neg hq, if_neg hq, lookupFM_cons,
          if_neg (fun he : f.Path = q => hq (he ▸ hf))]
    · have h1 : removeAll p (f :: m) = f :: removeAll p m := by
        simp [removeAll, List.filter_cons, hf]
      rw [h1, lookupFM_cons, lookupFM_cons, ih]
      by_cases hq : p <+: q
      · rw [if_pos hq, if_pos hq, if_neg (fun he : f.Path = q => hf (he ▸ hq))]
      · rw [if_neg hq, if_neg hq]

/-! ### Comparator (sync.go lines 279-315) -/

/-- Embeds `shouldCalculateChecksum` (sync.go lines 463-466). -/
def shouldCalculateChecksum (s : Options) : Bool :=
  s.Method = "checksum" || s.Checksum

/-- Embeds `compareByChecksum` (sync.go lines 308-315): digests are compared
only when both are present (non-empty), otherwise size + mtime decide. -/
def compareByChecksum (sourceFile destFile : FileInfo) : Bool :=
  if sourceFile.Checksum ≠ "" ∧ destFile.Checksum ≠ "" then
    sourceFile.Checksum ≠ destFile.Checksum
  else
    sourceFile.Size ≠ destFile.Size || destFile.ModTime < sourceFile.ModTime

/-- Embeds `shouldSync` (sync.go lines 280-306).  The Go `switch` on
`Method` matches `"size"` and `"checksum"`, and sends `"mtime"` together
with every other string to the same default arm. -/
def shouldSync (s : Options) (sourceFile : FileInfo) (destFiles : List FileInfo) : Bool :=
  match lookupFM destFiles sourceFile.Path with
  | none => true
  | some destFile =>
    if sourceFile.IsDir ≠ destFile.IsDir then true
    else if sourceFile.IsDir then false
    else if s.Method = "size" then sourceFile.Size ≠ destFile.Size
    else if s.Method = "checksum" then compareByChecksum sourceFile destFile
    else destFile.ModTime < sourceFile.ModTime || sourceFile.Size ≠ destFile.Size

/-! ### Statistics updates (sync.go lines 468-519) -/

/-- Embeds `addError`. -/
def addErrorS (e : String) (st : Stats) : Stats :=
  { st with Errors := st.Errors ++ [e] }

/-- `incrementChecked`, applied once per entry the scan records. -/
def addChecked (n : Nat) (st : Stats) : Stats :=
  { st with FilesChecked := st.FilesChecked + n }

/-- Embeds `incrementCopied`. -/
def incrementCopied (bytes : Nat) (st : Stats) : Stats :=
  { st with FilesCopied := st.FilesCopied + 1, BytesCopied := st.BytesCopied + bytes }

/-- Embeds `incrementDeleted`. -/
def incrementDeleted (bytes : Nat) (st : Stats) : Stats :=
  { st with FilesDeleted := st.FilesDeleted + 1, BytesDeleted := st.BytesDeleted + bytes }

/-- Embeds `incrementDirCreated`. -/
def incrementDirCreated (st : Stats) : Stats :=
  { st with DirsCreated := st.DirsCreated + 1 }

/-- Embeds `incrementDirToCreate`. -/
def incrementDirToCreate (st : Stats) : Stats :=
  { st with DirsToCreate := st.DirsToCreate + 1 }

/-- Embeds `incrementFileToCopy`. -/
def incrementFileToCopy (bytes : Nat) (st : Stats) : Stats :=
  { st with FilesToCopy := st.FilesToCopy + 1, BytesToCopy := st.BytesToCopy + bytes }

/-- Embeds `incrementFileToDelete`. -/
def incrementFileToDelete (bytes : Nat) (st : Stats) : Stats :=
  { st with FilesToDelete := st.FilesToDelete + 1, BytesToDelete := st.BytesToDelete + bytes }

/-! ### Executor (sync.go lines 226-403) -/

/-- The entry `os.MkdirAll` leaves at a created directory path: size 0,
current time, no checksum. -/
def mkDirInfo (p : List String) (now : Nat) : FileInfo :=
  ⟨p, 0, now, "", true⟩

/-- Embeds `syncDirectory` (sync.go lines 326-345): dry-run counts, a real
run creates the directory; a failed `MkdirAll` is reported to the error
channel and logged by `processFiles`. -/
def syncDirectory (s : Options) (env : Env) (e : FileInfo) (st : Stats)
    (tree : List FileInfo) : Stats × List FileInfo :=
  if s.DryRun then (incrementDirToCreate st, tree)
  else if env.pfail e.Path then (addErrorS "failed to create directory" st, tree)
  else (incrementDirCreated st, insertFM (mkDirInfo e.Path env.now) tree)

/-- Embeds `syncRegularFile` (sync.go lines 348-385): dry-run counts; a real
run stats the source, creates the parent directory, copies the bytes
(modelled by installing the source entry at the destination path), then
preserves the source mtime with `os.Chtimes` — whose failure is only
logged, leaving the fresh copy with the filesystem's write time. -/
def syncRegularFile (s : Options) (env : Env) (e : FileInfo) (st : Stats)
    (tree : List FileInfo) : Stats × List FileInfo :=
  if s.DryRun then (incrementFileToCopy e.Size st, tree)
  else if env.pfail e.Path then (addErrorS "failed to copy file" st, tree)
  else if env.tfail e.Path then
    (incrementCopied e.Size (addErrorS "Failed to preserve timestamps" st),
     insertFM { e with ModTime := env.now, IsDir := false } tree)
  else (incrementCopied e.Size st, insertFM { e with IsDir := false } tree)

/-- Embeds `syncFile` (sync.go lines 318-323). -/
def syncFile (s : Options) (env : Env) (e : FileInfo) (st : Stats)
    (tree : List FileInfo) : Stats × List FileInfo :=
  if e.IsDir then syncDirectory s env e st tree
  else syncRegularFile s env e st tree

/-- Embeds `processFiles` + `worker` (sync.go lines 226-277), sequentialized:
each source entry passing `shouldSync` (always judged against the
destination scan map, never the live tree) is executed.  `processFiles`
itself always returns `nil`; per-entry failures only reach the error log. -/
def processFiles (s : Options) (env : Env) (destFiles : List FileInfo) :
    List FileInfo → Stats × List FileInfo → Stats × List FileInfo
  | [], acc => acc
  | e :: rest, acc =>
    if shouldSync s e destFiles then
      processFiles s env destFiles rest (syncFile s env e acc.1 acc.2)
    else
      processFiles s env destFiles rest acc

/-- One iteration of the `deleteExtraFiles` loop body (sync.go lines
407-443): skip paths present in the source map, `os.Stat` the live tree
(skipping entries an earlier recursive removal already took), then either
count (dry-run), log a failure, or remove recursively and count non-directories. -/
def deleteOne (s : Options) (env : Env) (sourceFiles : List FileInfo)
    (d : FileInfo) (acc : Stats × List FileInfo) : Stats × List FileInfo :=
  if (lookupFM sourceFiles d.Path).isSome then acc
  else
    match lookupFM acc.2 d.Path with
    | none => acc
    | some info =>
      if s.DryRun then
        ((if info.IsDir then acc.1 else incrementFileToDelete info.Size acc.1), acc.2)
      else if env.dfail d.Path then (addErrorS "Failed to delete" acc.1, acc.2)
      else
        ((if info.IsDir then acc.1 else incrementDeleted info.Size acc.1),
         removeAll d.Path acc.2)

/-- Embeds `deleteExtraFiles` (sync.go lines 406-445); always returns `nil`
in Go, so the model returns only the updated state. -/
def deleteExtraFiles (s : Options) (env : Env) (sourceFiles : List FileInfo) :
    List FileInfo → Stats × List FileInfo → Stats × List FileInfo
  | [], acc => acc
  | d :: rest, acc =>
    deleteExtraFiles s env sourceFiles rest (deleteOne s env sourceFiles d acc)

/-! ### Orchestrator (sync.go lines 86-144) -/

/-- Result of one `Sync` call: the returned error, the accumulated
statistics, and the destination tree (`none` when the destination directory
does not exist). -/
structure SyncOutcome where
  err : Option String
  stats : Stats
  dest : Option (List FileInfo)
deriving Repr, DecidableEq

/-- Embeds the directory flow of `Sync` (sync.go lines 104-144) over scanned
maps.  `sourceTree = none` models a source root `filepath.Walk` cannot
access: the walk callback at the root logs a soft error and returns `nil`,
so `buildFileMap` yields an empty map and **no** hard error (sync.go lines
150-154).  An existing destination is scanned (scan = its entry map); a
missing one is created unless dry-run, and only a failing `os.MkdirAll`
of the destination root is fatal.  `processFiles` and `deleteExtraFiles`
never contribute to the returned error. -/
def Sync (s : Options) (env : Env) (sourceTree : Option (List FileInfo))
    (destCreatable : Bool) (destTree : Option (List FileInfo)) (st : Stats) :
    SyncOutcome :=
  let scanned : List FileInfo × Stats :=
    match sourceTree with
    | some m => (m, addChecked m.length st)
    | none => ([], addErrorS "Error accessing source root" st)
  let sourceFiles := scanned.1
  let st1 := scanned.2
  match destTree with
  | some dm =>
    let st2 := addChecked dm.length st1
    let r := processFiles s env dm sourceFiles (st2, dm)
    let r2 := if s.Delete then deleteExtraFiles s env sourceFiles dm r else r
    ⟨none, r2.1, some r2.2⟩
  | none =>
    if s.DryRun then
      let r := processFiles s env [] sourceFiles (st1, [])
      let r2 := if s.Delete then deleteExtraFiles s env sourceFiles [] r else r
      ⟨none, r2.1, none⟩
    else if destCreatable then
      let r := processFiles s env [] sourceFiles (st1, [])
      let r2 := if s.Delete then deleteExtraFiles s env sourceFiles [] r else r
      ⟨none, r2.1, some r2.2⟩
    else ⟨some "failed to create destination directory", st1, none⟩

/-! ### Archive dispatch (sync.go lines 96-102 and 623-764)

A TAR endpoint is modelled by the entry map of its content (`none` when the
archive file does not exist or cannot be opened); the codec is the external
collaborator, so extraction/creation move whole entry maps. -/

/-- One endpoint of a top-level `Sync` call: a live directory or a file
whose name matches `tar.IsTarFile`. -/
inductive Endpoint where
  | dirE : Option (List FileInfo) → Endpoint
  | tarE : Option (List FileInfo) → Endpoint
deriving Repr, DecidableEq

/-- Result of a top-level `Sync` call. -/
structure TopOutcome where
  err : Option String
  stats : Stats
  dest : Endpoint
deriving Repr, DecidableEq

/-- Embeds `extractTarToDirectory` (sync.go lines 641-670): in dry-run it
only prints and leaves the destination untouched; otherwise a missing or
unopenable archive is fatal, and extraction merges the archive entries into
the (created) destination directory. -/
def extractTarToDirectory (s : Options) (content : Option (List FileInfo))
    (destDir : Option (List FileInfo)) : Except String (Option (List FileInfo)) :=
  if s.DryRun then Except.ok destDir
  else
    match content with
    | none => Except.error "failed to extract archive"
    | some entries =>
      Except.ok (some (entries.foldl (fun t f => insertFM f t) (destDir.getD [])))

/-- Embeds `createTarFromDirectory` (sync.go lines 673-710): in dry-run it
only prints; otherwise the archive is rebuilt from the directory tree, and a
missing source directory is fatal. -/
def createTarFromDirectory (s : Options) (sourceDir : Option (List FileInfo))
    (tarContent : Option (List FileInfo)) : Except String (Option (List FileInfo)) :=
  if s.DryRun then Except.ok tarContent
  else
    match sourceDir with
    | none => Except.error "failed to create archive"
    | some m => Except.ok (some m)

/-- Embeds `syncTarToTar` (sync.go lines 713-764).  Both archives are
extracted into fresh temporary directories — but `extractTarToDirectory`
returns before extracting when `DryRun` is set, while the
`os.MkdirAll(destExtractDir)` in the no-destination branch is unconditional.
The inner directory sync then runs with `DryRun` forced to `false`, and the
destination archive is rebuilt only when the restored `DryRun` is off. -/
def syncTarToTar (s : Options) (env : Env) (sourceTar destTar : Option (List FileInfo))
    (st : Stats) : TopOutcome :=
  match extractTarToDirectory s sourceTar none with
  | Except.error e => ⟨some e, st, Endpoint.tarE destTar⟩
  | Except.ok sourceExtract =>
    let destExtract : Except String (Option (List FileInfo)) :=
      match destTar with
      | some c => extractTarToDirectory s (some c) none
      | none => Except.ok (some [])
    match destExtract with
    | Except.error e => ⟨some e, st, Endpoint.tarE destTar⟩
    | Except.ok destX =>
      let inner := Sync { s with DryRun := false } env sourceExtract true destX st
      match inner.err with
      | some e => ⟨some e, inner.stats, Endpoint.tarE destTar⟩
      | none =>
        if s.DryRun then ⟨none, inner.stats, Endpoint.tarE destTar⟩
        else
          match createTarFromDirectory s inner.dest destTar with
          | Except.error e => ⟨some e, inner.stats, Endpoint.tarE destTar⟩
          | Except.ok c => ⟨none, inner.stats, Endpoint.tarE c⟩

/-- Embeds the top of `Sync` plus `syncWithTar` (sync.go lines 96-102 and
624-638): endpoints are classified once and routed to the directory flow or
one of the three archive flows. -/
def SyncTop (s : Options) (env : Env) (destCreatable : Bool)
    (source destination : Endpoint) (st : Stats) : TopOutcome :=
  match source, destination with
  | Endpoint.dirE a, Endpoint.dirE b =>
    let r := Sync s env a destCreatable b st
    ⟨r.err, r.stats, Endpoint.dirE r.dest⟩
  | Endpoint.tarE c, Endpoint.dirE b =>
    match extractTarToDirectory s c b with
    | Except.error e => ⟨some e, st, Endpoint.dirE b⟩
    | Except.ok b2 => ⟨none, st, Endpoint.dirE b2⟩
  | Endpoint.dirE a, Endpoint.tarE c =>
    match createTarFromDirectory s a c with
    | Except.error e => ⟨some e, st, Endpoint.tarE c⟩
    | Except.ok c2 => ⟨none, st, Endpoint.tarE c2⟩
  | Endpoint.tarE c1, Endpoint.tarE c2 => syncTarToTar s env c1 c2 st

/-! ### Metadata scanner (sync.go lines 146-224)

`filepath.Walk` visits a tree depth-first with each directory before its
contents.  The walk callback skips the root (`relPath == "."`), and when
`Recursive` is off it returns `filepath.SkipDir` for a directory whose
relative path has more than one component (`filepath.Dir(relPath) != "."`)
— before the entry is recorded.  Checksum computation and the symlink
handling touch only the `Checksum` field and the error log, which the
scanner claims below do not mention, so the walk model records entries with
an empty checksum. -/

/-- One filesystem object for the scanner model: a file with a name, size
and mtime, or a directory with a name, mtime and children. -/
inductive FsNode where
  | file : String → Nat → Nat → FsNode
  | dir : String → Nat → List FsNode → FsNode

mutual

/-- The walk callback applied at one node whose parent has relative path
`pref` (sync.go lines 150-221). -/
def walkNode (recursive : Bool) (pref : List String) : FsNode → List FileInfo
  | FsNode.file n sz mt => [⟨pref ++ [n], sz, mt, "", false⟩]
  | FsNode.dir n mt children =>
    if ¬ recursive ∧ pref ≠ [] then []
    else ⟨pref ++ [n], 0, mt, "", true⟩ :: walkNodes recursive (pref ++ [n]) children

/-- The walk over a list of sibling nodes. -/
def walkNodes (recursive : Bool) (pref : List String) : List FsNode → List FileInfo
  | [] => []
  | t :: ts => walkNode recursive pref t ++ walkNodes recursive pref ts

end

/-- Embeds `buildFileMap` (sync.go lines 146-224) applied to a readable
root with the given children: the root itself is excluded from the map. -/
def buildFileMap (recursive : Bool) (rootChildren : List FsNode) : List FileInfo :=
  walkNodes recursive [] rootChildren

/-! ### Well-formedness of scan maps -/

/-- The nonempty proper prefixes of a path: the relative paths of its
ancestors below the root. -/
def properPrefixesOf (l : List String) : List (List String) :=
  (List.range (l.length - 1)).map (fun k => l.take (k + 1))

/-- A scan map is well formed when its paths are distinct (Go map keys) and
nonempty (the root `"."` is excluded by the walk callback). -/
def WFMap (m : List FileInfo) : Prop :=
  (pathsOf m).Nodup ∧ ∀ f ∈ m, f.Path ≠ []

instance (m : List FileInfo) : Decidable (WFMap m) := by
  unfold WFMap; infer_instance

/-- Every ancestor (below the root) of a mapped path is itself mapped — an
invariant of every map `filepath.Walk` produces, since the walk visits a
directory before its contents. -/
def AncestorClosed (m : List FileInfo) : Prop :=
  ∀ f ∈ m, ∀ p ∈ properPrefixesOf f.Path, p ∈ pathsOf m

instance (m : List FileInfo) : Decidable (AncestorClosed m) := by
  unfold AncestorClosed; infer_instance

/-- A list of entries in which no entry sits below a later one — the order
`filepath.Walk` emits (each directory before its contents). -/
def AncestorsFirst (m : List FileInfo) : Prop :=
  m.Pairwise (fun a b => ¬ b.Path <+: a.Path)

instance (m : List FileInfo) : Decidable (AncestorsFirst m) := by
  unfold AncestorsFirst; infer_instance

theorem mem_properPrefixesOf {p q : List String} (hne : p ≠ []) (hpre : p <+: q)
    (hneq : p ≠ q) : p ∈ properPrefixesOf q := by
  have hlen_le := hpre.length_le
  have hlt : p.length < q.length := by
    rcases Nat.lt_or_ge p.length q.length with h | h
    · exact h
    · exact absurd (List.IsPrefix.eq_of_length hpre (Nat.le_antisymm hlen_le h)) hneq
  have hpos : 0 < p.length := List.length_pos.mpr hne
  refine List.mem_map.mpr ⟨p.length - 1, List.mem_range.mpr (by omega), ?_⟩
  have h1 : p.length - 1 + 1 = p.length := by omega
  rw [h1]
  exact (List.prefix_iff_eq_take.mp hpre).symm

/-! ### Claim C1 -/

/-- Claim C1: with comparison method `mtime`, for two non-directory entries
at the same path, the comparator orders a sync exactly when the source
modification time is strictly after the destination one or the sizes
differ. -/
theorem msync_C1 (s : Options) (src d : FileInfo) (m : List FileInfo)
    (hm : s.Method = "mtime") (hs : src.IsDir = false) (hd : d.IsDir = false)
    (hl : lookupFM m src.Path = some d) :
    shouldSync s src m = true ↔ (d.ModTime < src.ModTime ∨ src.Size ≠ d.Size) := by
  unfold shouldSync
  rw [hl]
  simp [hs, hd, hm]

/-- Witness for C1: a 10-byte source with mtime 5 against a 10-byte
destination with mtime 3 must sync. -/
theorem msync_C1_witness :
    shouldSync ⟨false, false, true, false, "mtime", false⟩ ⟨["a"], 10, 5, "", false⟩
      [⟨["a"], 10, 3, "", false⟩] = true ↔ ((3 : Nat) < 5 ∨ (10 : Nat) ≠ 10) :=
  msync_C1 ⟨false, false, true, false, "mtime", false⟩ ⟨["a"], 10, 5, "", false⟩
    ⟨["a"], 10, 3, "", false⟩ [⟨["a"], 10, 3, "", false⟩] rfl rfl rfl (by decide)

/-! ### Claim C4 -/

/-- Claim C4: with comparison method `checksum`, for two non-directory
entries at the same path: when both digests are present the comparator
orders a sync exactly when the digests differ; when either digest is
missing it falls back to the `mtime` rule (mtime strictly after, or sizes
differ). -/
theorem msync_C4 (s : Options) (src d : FileInfo) (m : List FileInfo)
    (hm : s.Method = "checksum") (hs : src.IsDir = false) (hd : d.IsDir = false)
    (hl : lookupFM m src.Path = some d) :
    ((src.Checksum ≠ "" ∧ d.Checksum ≠ "") →
      (shouldSync s src m = true ↔ src.Checksum ≠ d.Checksum)) ∧
    ((src.Checksum = "" ∨ d.Checksum = "") →
      (shouldSync s src m = true ↔ (d.ModTime < src.ModTime ∨ src.Size ≠ d.Size))) := by
  unfold shouldSync
  rw [hl]
  constructor
  · intro hboth
    simp [hs, hd, hm, compareByChecksum, hboth]
  · intro hmiss
    have hnboth : ¬ (src.Checksum ≠ "" ∧ d.Checksum ≠ "") := by
      rcases hmiss with h | h <;> simp [h]
    simp only [hs, hd, hm]
    simp [compareByChecksum, hnboth, or_comm]

/-- Witness for C4: both digests present and different (sync), and a
missing destination digest with equal size and a non-newer source (no
sync). -/
theorem msync_C4_witness :
    ((("x" : String) ≠ "" ∧ ("y" : String) ≠ "") →
      (shouldSync ⟨false, false, true, false, "checksum", false⟩
        ⟨["a"], 10, 5, "x", false⟩ [⟨["a"], 10, 9, "y", false⟩] = true ↔
        ("x" : String) ≠ "y")) ∧
    ((("x" : String) = "" ∨ ("y" : String) = "") →
      (shouldSync ⟨false, false, true, false, "checksum", false⟩
        ⟨["a"], 10, 5, "x", false⟩ [⟨["a"], 10, 9, "y", false⟩] = true ↔
        ((9 : Nat) < 5 ∨ (10 : Nat) ≠ 10))) :=
  msync_C4 ⟨false, false, true, false, "checksum", false⟩ ⟨["a"], 10, 5, "x", false⟩
    ⟨["a"], 10, 9, "y", false⟩ [⟨["a"], 10, 9, "y", false⟩] rfl rfl rfl (by decide)

/-! ### Claim C9 -/

/-- Erases the checksum field, keeping everything the comparator's `mtime`
and `size` policies may legitimately read. -/
def scrubChecksum (f : FileInfo) : FileInfo :=
  { f with Checksum := "" }

theorem scrubChecksum_fields (f : FileInfo) :
    (scrubChecksum f).Path = f.Path ∧ (scrubChecksum f).Size = f.Size ∧
    (scrubChecksum f).ModTime = f.ModTime ∧ (scrubChecksum f).IsDir = f.IsDir :=
  ⟨rfl, rfl, rfl, rfl⟩

theorem lookupFM_map_scrub {m₁ m₂ : List FileInfo} (p : List String)
    (h : m₁.map scrubChecksum = m₂.map scrubChecksum) :
    Option.map scrubChecksum (lookupFM m₁ p) =
      Option.map scrubChecksum (lookupFM m₂ p) := by
  induction m₁ generalizing m₂ with
  | nil =>
    cases m₂ with
    | nil => rfl
    | cons g t => simp at h
  | cons f m ih =>
    cases m₂ with
    | nil => simp at h
    | cons g t =>
      simp only [List.map_cons, List.cons.injEq] at h
      obtain ⟨hfg, hrest⟩ := h
      have hpath : f.Path = g.Path := by
        have h1 : (scrubChecksum f).Path = (scrubChecksum g).Path := by rw [hfg]
        simpa [scrubChecksum] using h1
      rw [lookupFM_cons, lookupFM_cons, ← hpath]
      by_cases hp : f.Path = p
      · simp [hp, hfg]
      · rw [if_neg hp, if_neg hp]
        exact ih hrest

/-- Claim C9: with method `mtime` or `size`, the comparator's decision does
not depend on the checksum fields: two source entries and two destination
maps that agree on everything except checksums produce the same decision
(so digests computed because of the standalone checksum option cannot
influence it). -/
theorem msync_C9 (s : Options) (e₁ e₂ : FileInfo) (m₁ m₂ : List FileInfo)
    (hm : s.Method = "mtime" ∨ s.Method = "size")
    (he : scrubChecksum e₁ = scrubChecksum e₂)
    (hmap : m₁.map scrubChecksum = m₂.map scrubChecksum) :
    shouldSync s e₁ m₁ = shouldSync s e₂ m₂ := by
  have hpath : e₁.Path = e₂.Path := by
    have h1 : (scrubChecksum e₁).Path = (scrubChecksum e₂).Path := by rw [he]
    simpa [scrubChecksum] using h1
  have hsize : e₁.Size = e₂.Size := by
    have h1 : (scrubChecksum e₁).Size = (scrubChecksum e₂).Size := by rw [he]
    simpa [scrubChecksum] using h1
  have hmt : e₁.ModTime = e₂.ModTime := by
    have h1 : (scrubChecksum e₁).ModTime = (scrubChecksum e₂).ModTime := by rw [he]
    simpa [scrubChecksum] using h1
  have hdir : e₁.IsDir = e₂.IsDir := by
    have h1 : (scrubChecksum e₁).IsDir = (scrubChecksum e₂).IsDir := by rw [he]
    simpa [scrubChecksum] using h1
  have hlk := lookupFM_map_scrub e₁.Path hmap
  unfold shouldSync
  rw [← hpath]
  cases h₁ : lookupFM m₁ e₁.Path with
  | none =>
    cases h₂ : lookupFM m₂ e₁.Path with
    | none => rfl
    | some d₂ => rw [h₁, h₂] at hlk; simp at hlk
  | some d₁ =>
    cases h₂ : lookupFM m₂ e₁.Path with
    | none => rw [h₁, h₂] at hlk; simp at hlk
    | some d₂ =>
      rw [h₁, h₂] at hlk
      replace hlk : scrubChecksum d₁ = scrubChecksum d₂ := by simpa using hlk
      have hdp : d₁.IsDir = d₂.IsDir := by
        have h1 : (scrubChecksum d₁).IsDir = (scrubChecksum d₂).IsDir := by rw [hlk]
        simpa [scrubChecksum] using h1
      have hds : d₁.Size = d₂.Size := by
        have h1 : (scrubChecksum d₁).Size = (scrubChecksum d₂).Size := by rw [hlk]
        simpa [scrubChecksum] using h1
      have hdm : d₁.ModTime = d₂.ModTime := by
        have h1 : (scrubChecksum d₁).ModTime = (scrubChecksum d₂).ModTime := by rw [hlk]
        simpa [scrubChecksum] using h1
      rcases hm with hm | hm <;>
        simp [hm, hdir, hdp, hds, hdm, hsize, hmt]

/-- Witness for C9: the same pair judged under `mtime` with and without
computed digests. -/
theorem msync_C9_witness :
    shouldSync ⟨true, false, true, false, "mtime", false⟩ ⟨["a"], 10, 5, "aaa", false⟩
      [⟨["a"], 10, 5, "bbb", false⟩] =
    shouldSync ⟨true, false, true, false, "mtime", false⟩ ⟨["a"], 10, 5, "", false⟩
      [⟨["a"], 10, 5, "", false⟩] :=
  msync_C9 ⟨true, false, true, false, "mtime", false⟩ ⟨["a"], 10, 5, "aaa", false⟩
    ⟨["a"], 10, 5, "", false⟩ [⟨["a"], 10, 5, "bbb", false⟩] [⟨["a"], 10, 5, "", false⟩]
    (Or.inl rfl) (by decide) (by decide)

/-! ### Claim C5

The spec calls an unreadable source root fatal, and `Sync` wraps a
`buildFileMap` error as `"failed to scan source directory"` — but the walk
callback inside `buildFileMap` converts the root access error into a soft
log entry and returns `nil`, so that wrapper is dead code: the call
continues with an **empty source map** and returns success, and with the
delete option it then removes every destination entry. -/

/-- Claim C5 (divergence exhibit): with an unreadable source root, a
writable destination holding one 7-byte file, and deletion enabled, the
call returns no error, merely logs a soft error, and leaves the destination
empty — instead of aborting. -/
theorem msync_C5_unreadable_source_is_not_fatal :
    (Sync ⟨false, false, true, true, "mtime", false⟩ noFailEnv none true
        (some [⟨["b"], 7, 1, "", false⟩]) Stats.empty).err = none ∧
    (Sync ⟨false, false, true, true, "mtime", false⟩ noFailEnv none true
        (some [⟨["b"], 7, 1, "", false⟩]) Stats.empty).stats.Errors =
      ["Error accessing source root"] ∧
    (Sync ⟨false, false, true, true, "mtime", false⟩ noFailEnv none true
        (some [⟨["b"], 7, 1, "", false⟩]) Stats.empty).dest = some [] := by
  refine ⟨rfl, rfl, rfl⟩

/-! ### Claim C6 -/

/-- Claim C6 is false on the code: with `recursive` off, the walk records a
top-level directory and still **descends into it**, because the
`filepath.SkipDir` guard only fires for directories whose relative path has
two or more components.  A file directly inside a top-level directory lands
in the map at depth two. -/
theorem msync_C6_counterexample :
    (⟨["sub", "f"], 1, 2, "", false⟩ : FileInfo) ∈
      buildFileMap false [FsNode.dir "sub" 0 [FsNode.file "f" 1 2]] ∧
    (["sub", "f"] : List String).length > 1 := by
  constructor
  · simp [buildFileMap, walkNodes, walkNode]
  · decide

theorem walkNodes_nonrec_deep {pref : List String} (hp : pref ≠ [])
    (nodes : List FsNode) :
    ∀ e ∈ walkNodes false pref nodes,
      e.Path.length = pref.length + 1 ∧ e.IsDir = false := by
  induction nodes with
  | nil => intro e he; simp [walkNodes] at he
  | cons t ts ih =>
    intro e he
    rw [walkNodes] at he
    rcases List.mem_append.mp he with h | h
    · cases t with
      | file n sz mt =>
        rw [walkNode] at h
        rcases List.mem_singleton.mp h with rfl
        simp
      | dir n mt ch =>
        rw [walkNode, if_pos ⟨by decide, hp⟩] at h
        cases h
    · exact ih e h

/-- Claim C6 amended: with `recursive` off the scan map holds entries of
depth at most two; every directory entry in it is top-level (depth-two
entries can only be non-directories, recorded while descending exactly one
level into top-level directories). -/
theorem msync_C6_amended (nodes : List FsNode) :
    ∀ e ∈ buildFileMap false nodes,
      e.Path.length ≤ 2 ∧ (e.IsDir = true → e.Path.length = 1) := by
  unfold buildFileMap
  induction nodes with
  | nil => intro e he; simp [walkNodes] at he
  | cons t ts ih =>
    intro e he
    rw [walkNodes] at he
    rcases List.mem_append.mp he with h | h
    · cases t with
      | file n sz mt =>
        rw [walkNode] at h
        rcases List.mem_singleton.mp h with rfl
        simp
      | dir n mt ch =>
        rw [walkNode, if_neg (by simp)] at h
        rcases List.mem_cons.mp h with rfl | h
        · simp
        · have hd := @walkNodes_nonrec_deep [n] (by simp) ch e h
          simp only [List.length_cons, List.length_nil] at hd
          exact ⟨by omega, fun hdir => by rw [hd.2] at hdir; cases hdir⟩
    · exact ih e h

/-- Witness for the amended C6 at a concrete two-level tree. -/
theorem msync_C6_amended_witness :
    (⟨["sub", "f"], 1, 2, "", false⟩ : FileInfo).Path.length ≤ 2 ∧
    ((⟨["sub", "f"], 1, 2, "", false⟩ : FileInfo).IsDir = true →
      (⟨["sub", "f"], 1, 2, "", false⟩ : FileInfo).Path.length = 1) :=
  msync_C6_amended [FsNode.dir "sub" 0 [FsNode.file "f" 1 2]]
    ⟨["sub", "f"], 1, 2, "", false⟩
    (by simp [buildFileMap, walkNodes, walkNode])

/-! ### Claim C7 -/

/-- Claim C7: whenever no fatal condition occurs — the source root readable
(scanned map supplied) and the destination root present or creatable — the
call returns success for **every** failure oracle: per-entry copy, mkdir,
timestamp and delete failures never become the call's return value. -/
theorem msync_C7 (s : Options) (env : Env) (srcMap : List FileInfo) (dc : Bool)
    (dest : Option (List FileInfo)) (st : Stats)
    (h : dest.isSome = true ∨ dc = true ∨ s.DryRun = true) :
    (Sync s env (some srcMap) dc dest st).err = none := by
  cases dest with
  | some dm => rfl
  | none =>
    unfold Sync
    by_cases hd : s.DryRun
    · simp [hd]
    · rcases h with h | h | h
      · simp at h
      · simp [hd, h]
      · exact absurd h hd

/-- Witness for C7: an environment in which every copy, chtimes and delete
fails still yields a `nil` return (and a non-empty error log). -/
theorem msync_C7_witness :
    (Sync ⟨false, false, true, true, "mtime", false⟩
        ⟨fun _ => true, fun _ => true, fun _ => true, 0⟩
        (some [⟨["a"], 10, 5, "", false⟩]) true
        (some [⟨["b"], 7, 1, "", false⟩]) Stats.empty).err = none :=
  msync_C7 ⟨false, false, true, true, "mtime", false⟩
    ⟨fun _ => true, fun _ => true, fun _ => true, 0⟩
    [⟨["a"], 10, 5, "", false⟩] true (some [⟨["b"], 7, 1, "", false⟩]) Stats.empty
    (Or.inl rfl)

/-! ### Executor characterization lemmas -/

/-- Source entries the run will copy: non-directories passing the
comparator. -/
def toCopyFiles (s : Options) (sourceFiles destFiles : List FileInfo) : List FileInfo :=
  sourceFiles.filter (fun e => shouldSync s e destFiles && !e.IsDir)

/-- Source entries the run will mkdir: directories passing the
comparator. -/
def toCreateDirs (s : Options) (sourceFiles destFiles : List FileInfo) : List FileInfo :=
  sourceFiles.filter (fun e => shouldSync s e destFiles && e.IsDir)

/-- Destination-scan entries the deletion pass counts in dry-run:
extraneous non-directories. -/
def extraneousFiles (sourceFiles destFiles : List FileInfo) : List FileInfo :=
  destFiles.filter (fun d => !(lookupFM sourceFiles d.Path).isSome && !d.IsDir)

/-- Total byte size of a list of entries. -/
def sumSizes (l : List FileInfo) : Nat :=
  l.foldr (fun f acc => f.Size + acc) 0

theorem sumSizes_cons (f : FileInfo) (l : List FileInfo) :
    sumSizes (f :: l) = f.Size + sumSizes l := rfl

/-- The entry a successful real-run operation installs at the destination
path: a freshly created directory, or a byte-for-byte copy carrying the
source's size, content and (after `os.Chtimes`) mtime. -/
def copyImage (env : Env) (e : FileInfo) : FileInfo :=
  if e.IsDir then mkDirInfo e.Path env.now else { e with IsDir := false }

theorem copyImage_file {env : Env} {e : FileInfo} (h : e.IsDir = false) :
    copyImage env e = e := by
  cases e with
  | mk P S M C D =>
    simp only [FileInfo.IsDir] at h
    subst h
    simp [copyImage]

/-- The comparator only reads the source entry and the destination map's
binding of its path. -/
theorem shouldSync_congr (s : Options) (e : FileInfo) {m₁ m₂ : List FileInfo}
    (h : lookupFM m₁ e.Path = lookupFM m₂ e.Path) :
    shouldSync s e m₁ = shouldSync s e m₂ := by
  unfold shouldSync
  rw [h]

/-- The comparator never asks to re-sync an entry against an identical
destination binding of the same kind. -/
theorem shouldSync_self (s : Options) (e : FileInfo) {m : List FileInfo} {d : FileInfo}
    (hl : lookupFM m e.Path = some d) (hdir : d.IsDir = e.IsDir)
    (hsz : d.Size = e.Size) (hmt : d.ModTime = e.ModTime)
    (hck : d.Checksum = e.Checksum) :
    shouldSync s e m = false := by
  have h1 : ¬ (e.IsDir ≠ d.IsDir) := by rw [hdir]; simp
  simp only [shouldSync, hl]
  rw [if_neg h1]
  by_cases hD : e.IsDir
  · rw [if_pos hD]
  · rw [if_neg hD]
    split_ifs with h2 h3
    · simp [hsz]
    · rw [compareByChecksum]
      split_ifs with h4
      · simp [hck]
      · simp [hsz, hmt, lt_irrefl]
    · simp [hsz, hmt, lt_irrefl]

/-- A filtered-out work list leaves the executor's state untouched. -/
theorem processFiles_none (s : Options) (env : Env) (destFiles : List FileInfo)
    {src : List FileInfo} (h : ∀ e ∈ src, shouldSync s e destFiles = false)
    (acc : Stats × List FileInfo) :
    processFiles s env destFiles src acc = acc := by
  induction src with
  | nil => rfl
  | cons e rest ih =>
    rw [processFiles, if_neg]
    · exact ih (fun x hx => h x (List.mem_cons_of_mem _ hx))
    · rw [h e (List.mem_cons_self e rest)]
      simp

/-- The copy pass never writes at a path outside the source map. -/
theorem processFiles_lookup_notin (s : Options) (env : Env) (destFiles : List FileInfo)
    (src : List FileInfo) (acc : Stats × List FileInfo) {p : List String}
    (hp : p ∉ pathsOf src) :
    lookupFM (processFiles s env destFiles src acc).2 p = lookupFM acc.2 p := by
  induction src generalizing acc with
  | nil => rfl
  | cons e rest ih =>
    have hpe : ¬ p = e.Path := fun h =>
      hp (by rw [h]; exact List.mem_map_of_mem _ (List.mem_cons_self e rest))
    have hprest : p ∉ pathsOf rest := fun h =>
      hp (List.mem_cons_of_mem _ h)
    rw [processFiles]
    by_cases hq : shouldSync s e destFiles
    · rw [if_pos hq, ih _ hprest]
      show lookupFM (syncFile s env e acc.1 acc.2).2 p = lookupFM acc.2 p
      unfold syncFile syncDirectory syncRegularFile
      split_ifs <;>
        simp [lookupFM_insertFM, hpe, mkDirInfo]
    · rw [if_neg hq]
      exact ih _ hprest

/-- What the copy pass (with no copy or chtimes failures) leaves at each
source path: the fresh image when the entry qualified, the old binding
otherwise. -/
theorem processFiles_lookup_mem (s : Options) (env : Env) (destFiles : List FileInfo)
    {src : List FileInfo} (acc : Stats × List FileInfo)
    (hdry : s.DryRun = false) (hpf : ∀ p, env.pfail p = false)
    (htf : ∀ p, env.tfail p = false) (hnd : (pathsOf src).Nodup)
    {e : FileInfo} (he : e ∈ src) :
    lookupFM (processFiles s env destFiles src acc).2 e.Path =
      if shouldSync s e destFiles then some (copyImage env e)
      else lookupFM acc.2 e.Path := by
  induction src generalizing acc with
  | nil => cases he
  | cons h rest ih =>
    have hnd1 : h.Path ∉ pathsOf rest := by
      rw [pathsOf, List.map_cons, List.nodup_cons] at hnd
      exact hnd.1
    have hnd2 : (pathsOf rest).Nodup := by
      rw [pathsOf, List.map_cons, List.nodup_cons] at hnd
      exact hnd.2
    rcases List.mem_cons.mp he with rfl | he
    · rw [processFiles]
      by_cases hq : shouldSync s e destFiles
      · rw [if_pos hq, if_pos hq,
          processFiles_lookup_notin s env destFiles rest _ hnd1]
        show lookupFM (syncFile s env e acc.1 acc.2).2 e.Path = some (copyImage env e)
        unfold syncFile syncDirectory syncRegularFile copyImage
        rw [hdry, hpf, htf]
        by_cases hD : e.IsDir <;>
          simp [hD, lookupFM_insertFM, mkDirInfo]
      · rw [if_neg hq, if_neg hq,
          processFiles_lookup_notin s env destFiles rest _ hnd1]
    · have hph : ¬ e.Path = h.Path := fun hcontra =>
        hnd1 (hcontra ▸ List.mem_map_of_mem _ he)
      rw [processFiles]
      by_cases hq : shouldSync s h destFiles
      · rw [if_pos hq, ih _ hnd2 he]
        show (if shouldSync s e destFiles then some (copyImage env e)
            else lookupFM (syncFile s env h acc.1 acc.2).2 e.Path) = _
        by_cases hq2 : shouldSync s e destFiles
        · rw [if_pos hq2, if_pos hq2]
        · rw [if_neg hq2, if_neg hq2]
          show lookupFM (syncFile s env h acc.1 acc.2).2 e.Path = lookupFM acc.2 e.Path
          unfold syncFile syncDirectory syncRegularFile
          split_ifs <;>
            simp [lookupFM_insertFM, hph, mkDirInfo]
      · rw [if_neg hq]
        exact ih _ hnd2 he

/-- The statistics a dry-run copy pass produces: preview counters advance
by the qualifying work, everything else stays. -/
def previewStats (s : Options) (src destFiles : List FileInfo) (st : Stats) : Stats :=
  { st with
    FilesToCopy := st.FilesToCopy + (toCopyFiles s src destFiles).length
    BytesToCopy := st.BytesToCopy + sumSizes (toCopyFiles s src destFiles)
    DirsToCreate := st.DirsToCreate + (toCreateDirs s src destFiles).length }

/-- A dry-run copy pass mutates nothing and counts exactly the qualifying
entries. -/
theorem processFiles_dryRun (s : Options) (env : Env) (destFiles : List FileInfo)
    (src : List FileInfo) (st : Stats) (tree : List FileInfo)
    (hdry : s.DryRun = true) :
    processFiles s env destFiles src (st, tree) =
      (previewStats s src destFiles st, tree) := by
  induction src generalizing st with
  | nil => rfl
  | cons e rest ih =>
    rw [processFiles]
    by_cases hq : shouldSync s e destFiles
    · rw [if_pos hq]
      by_cases hD : e.IsDir
      · have hstep : syncFile s env e st tree = (incrementDirToCreate st, tree) := by
          simp [syncFile, syncDirectory, hD, hdry]
        rw [hstep, ih]
        have hC : toCopyFiles s (e :: rest) destFiles = toCopyFiles s rest destFiles := by
          simp [toCopyFiles, List.filter_cons, hq, hD]
        have hE : toCreateDirs s (e :: rest) destFiles =
            e :: toCreateDirs s rest destFiles := by
          simp [toCreateDirs, List.filter_cons, hq, hD]
        cases st
        simp only [previewStats, incrementDirToCreate, hC, hE, List.length_cons,
          Prod.mk.injEq, Stats.mk.injEq, true_and, and_true]
        omega
      · have hD2 : e.IsDir = false := by simpa using hD
        have hstep : syncFile s env e st tree = (incrementFileToCopy e.Size st, tree) := by
          simp [syncFile, syncRegularFile, hD2, hdry]
        rw [hstep, ih]
        have hC : toCopyFiles s (e :: rest) destFiles =
            e :: toCopyFiles s rest destFiles := by
          simp [toCopyFiles, List.filter_cons, hq, hD2]
        have hE : toCreateDirs s (e :: rest) destFiles = toCreateDirs s rest destFiles := by
          simp [toCreateDirs, List.filter_cons, hq, hD2]
        cases st
        simp only [previewStats, incrementFileToCopy, hC, hE, List.length_cons,
          sumSizes_cons, Prod.mk.injEq, Stats.mk.injEq, true_and, and_true]
        omega
    · rw [if_neg hq, ih]
      have hq2 : shouldSync s e destFiles = false := by simpa using hq
      have hC : toCopyFiles s (e :: rest) destFiles = toCopyFiles s rest destFiles := by
        simp [toCopyFiles, List.filter_cons, hq2]
      have hE : toCreateDirs s (e :: rest) destFiles = toCreateDirs s rest destFiles := by
        simp [toCreateDirs, List.filter_cons, hq2]
      rw [previewStats, previewStats, hC, hE]

/-- The statistics a fault-free real copy pass produces. -/
def executedStats (s : Options) (src destFiles : List FileInfo) (st : Stats) : Stats :=
  { st with
    FilesCopied := st.FilesCopied + (toCopyFiles s src destFiles).length
    BytesCopied := st.BytesCopied + sumSizes (toCopyFiles s src destFiles)
    DirsCreated := st.DirsCreated + (toCreateDirs s src destFiles).length }

/-- A fault-free real copy pass copies every qualifying file and creates
every qualifying directory, counting exactly those. -/
theorem processFiles_realRun (s : Options) (env : Env) (destFiles : List FileInfo)
    (src : List FileInfo) (st : Stats) (tree : List FileInfo)
    (hdry : s.DryRun = false) (hpf : ∀ p, env.pfail p = false)
    (htf : ∀ p, env.tfail p = false) :
    (processFiles s env destFiles src (st, tree)).1 =
      executedStats s src destFiles st := by
  induction src generalizing st tree with
  | nil => rfl
  | cons e rest ih =>
    rw [processFiles]
    by_cases hq : shouldSync s e destFiles
    · rw [if_pos hq]
      by_cases hD : e.IsDir
      · have hstep : syncFile s env e st tree =
            (incrementDirCreated st, insertFM (mkDirInfo e.Path env.now) tree) := by
          simp [syncFile, syncDirectory, hD, hdry, hpf]
        rw [hstep, ih]
        have hC : toCopyFiles s (e :: rest) destFiles = toCopyFiles s rest destFiles := by
          simp [toCopyFiles, List.filter_cons, hq, hD]
        have hE : toCreateDirs s (e :: rest) destFiles =
            e :: toCreateDirs s rest destFiles := by
          simp [toCreateDirs, List.filter_cons, hq, hD]
        cases st
        simp only [executedStats, incrementDirCreated, hC, hE, List.length_cons,
          Stats.mk.injEq, true_and, and_true]
        omega
      · have hD2 : e.IsDir = false := by simpa using hD
        have hstep : syncFile s env e st tree =
            (incrementCopied e.Size st, insertFM { e with IsDir := false } tree) := by
          simp [syncFile, syncRegularFile, hD2, hdry, hpf, htf]
        rw [hstep, ih]
        have hC : toCopyFiles s (e :: rest) destFiles =
            e :: toCopyFiles s rest destFiles := by
          simp [toCopyFiles, List.filter_cons, hq, hD2]
        have hE : toCreateDirs s (e :: rest) destFiles = toCreateDirs s rest destFiles := by
          simp [toCreateDirs, List.filter_cons, hq, hD2]
        cases st
        simp only [executedStats, incrementCopied, hC, hE, List.length_cons,
          sumSizes_cons, Stats.mk.injEq, true_and, and_true]
        omega
    · rw [if_neg hq, ih]
      have hq2 : shouldSync s e destFiles = false := by simpa using hq
      have hC : toCopyFiles s (e :: rest) destFiles = toCopyFiles s rest destFiles := by
        simp [toCopyFiles, List.filter_cons, hq2]
      have hE : toCreateDirs s (e :: rest) destFiles = toCreateDirs s rest destFiles := by
        simp [toCreateDirs, List.filter_cons, hq2]
      rw [executedStats, executedStats, hC, hE]

/-! ### Deletion pass characterization lemmas -/

/-- A deletion pass over a list with no extraneous entries does nothing. -/
theorem deleteExtraFiles_noextra (s : Options) (env : Env) (src : List FileInfo)
    {L : List FileInfo} (h : ∀ d ∈ L, (lookupFM src d.Path).isSome = true)
    (acc : Stats × List FileInfo) :
    deleteExtraFiles s env src L acc = acc := by
  induction L with
  | nil => rfl
  | cons d rest ih =>
    rw [deleteExtraFiles, deleteOne, if_pos (h d (List.mem_cons_self d rest))]
    exact ih (fun x hx => h x (List.mem_cons_of_mem _ hx))

/-- One deletion step either leaves the tree alone or recursively removes
one extraneous path. -/
theorem deleteOne_cases (s : Options) (env : Env) (src : List FileInfo)
    (d : FileInfo) (acc : Stats × List FileInfo) :
    (deleteOne s env src d acc).2 = acc.2 ∨
    ((lookupFM src d.Path).isSome = false ∧
      (deleteOne s env src d acc).2 = removeAll d.Path acc.2) := by
  rw [deleteOne]
  by_cases h1 : (lookupFM src d.Path).isSome
  · rw [if_pos h1]
    exact Or.inl rfl
  · rw [if_neg h1]
    cases hL : lookupFM acc.2 d.Path with
    | none => exact Or.inl rfl
    | some info =>
      split_ifs with h2 h3
      · exact Or.inl rfl
      · exact Or.inl rfl
      · exact Or.inr ⟨by simpa using h1, rfl⟩

/-- The deletion pass never resurrects a path. -/
theorem deleteExtraFiles_none_preserved (s : Options) (env : Env)
    (src : List FileInfo) (L : List FileInfo) (acc : Stats × List FileInfo)
    {p : List String} (hp : lookupFM acc.2 p = none) :
    lookupFM (deleteExtraFiles s env src L acc).2 p = none := by
  induction L generalizing acc with
  | nil => exact hp
  | cons d rest ih =>
    rw [deleteExtraFiles]
    refine ih _ ?_
    rcases deleteOne_cases s env src d acc with h | ⟨hx, h⟩
    · rw [h]
      exact hp
    · rw [h, lookupFM_removeAll]
      split_ifs <;> simp [hp]

/-- The deletion pass leaves every source path alone, provided the source
map is ancestor closed and the destination scan has nonempty paths. -/
theorem deleteExtraFiles_src_preserved (s : Options) (env : Env)
    {src : List FileInfo} (hanc : AncestorClosed src)
    (L : List FileInfo) (hwf : ∀ d ∈ L, d.Path ≠ [])
    (acc : Stats × List FileInfo) {p : List String} (hp : p ∈ pathsOf src) :
    lookupFM (deleteExtraFiles s env src L acc).2 p = lookupFM acc.2 p := by
  induction L generalizing acc with
  | nil => rfl
  | cons d rest ih =>
    rw [deleteExtraFiles]
    have hrest : ∀ x ∈ rest, x.Path ≠ [] := fun x hx => hwf x (List.mem_cons_of_mem _ hx)
    rw [ih hrest]
    rcases deleteOne_cases s env src d acc with h | ⟨hx, h⟩
    · rw [h]
    · rw [h, lookupFM_removeAll]
      have hnp : ¬ d.Path <+: p := by
        intro hpre
        by_cases heq : d.Path = p
        · rw [← lookupFM_isSome_iff, ← heq] at hp
          rw [hp] at hx
          cases hx
        · obtain ⟨f, hf, hfp⟩ := List.mem_map.mp hp
          have hmem := hanc f hf d.Path
            (mem_properPrefixesOf (hwf d (List.mem_cons_self d rest))
              (hfp ▸ hpre) (by rw [hfp]; exact heq))
          rw [← lookupFM_isSome_iff] at hmem
          rw [hmem] at hx
          cases hx
      rw [if_neg hnp]

/-- A fault-free non-dry deletion pass removes every extraneous listed
entry. -/
theorem deleteExtraFiles_removes (s : Options) (env : Env) (src : List FileInfo)
    (L : List FileInfo) (acc : Stats × List FileInfo)
    (hdry : s.DryRun = false) (hdf : ∀ p, env.dfail p = false)
    {d : FileInfo} (hd : d ∈ L) (hx : (lookupFM src d.Path).isSome = false) :
    lookupFM (deleteExtraFiles s env src L acc).2 d.Path = none := by
  induction L generalizing acc with
  | nil => cases hd
  | cons h rest ih =>
    rw [deleteExtraFiles]
    rcases List.mem_cons.mp hd with rfl | hd2
    · refine deleteExtraFiles_none_preserved s env src rest _ ?_
      rw [deleteOne, if_neg (by simp [hx])]
      cases hL : lookupFM acc.2 d.Path with
      | none => exact hL
      | some info =>
        simp only [hdry, hdf d.Path, Bool.false_eq_true, if_false]
        show lookupFM (removeAll d.Path acc.2) d.Path = none
        rw [lookupFM_removeAll, if_pos (List.prefix_refl _)]
    · exact ih _ hd2

/-- The statistics a dry-run deletion pass produces. -/
def previewDeleteStats (src L : List FileInfo) (st : Stats) : Stats :=
  { st with
    FilesToDelete := st.FilesToDelete + (extraneousFiles src L).length
    BytesToDelete := st.BytesToDelete + sumSizes (extraneousFiles src L) }

/-- A dry-run deletion pass (over a scan that agrees with the live tree)
mutates nothing and counts exactly the extraneous non-directories. -/
theorem deleteExtraFiles_dryRun (s : Options) (env : Env) (src : List FileInfo)
    (L : List FileInfo) (st : Stats) (tree : List FileInfo)
    (hdry : s.DryRun = true)
    (hlk : ∀ d ∈ L, (lookupFM src d.Path).isSome = false →
      lookupFM tree d.Path = some d) :
    deleteExtraFiles s env src L (st, tree) = (previewDeleteStats src L st, tree) := by
  induction L generalizing st with
  | nil => rfl
  | cons d rest ih =>
    rw [deleteExtraFiles]
    have hrest : ∀ x ∈ rest, (lookupFM src x.Path).isSome = false →
        lookupFM tree x.Path = some x :=
      fun x hx => hlk x (List.mem_cons_of_mem _ hx)
    by_cases h1 : (lookupFM src d.Path).isSome
    · obtain ⟨v, hv⟩ := Option.isSome_iff_exists.mp h1
      rw [deleteOne, if_pos h1, ih _ hrest]
      have hX : extraneousFiles src (d :: rest) = extraneousFiles src rest := by
        simp [extraneousFiles, List.filter_cons, hv]
      rw [previewDeleteStats, previewDeleteStats, hX]
    · have h2 : (lookupFM src d.Path).isSome = false := by simpa using h1
      have hstep : deleteOne s env src d (st, tree) =
          ((if d.IsDir then st else incrementFileToDelete d.Size st), tree) := by
        rw [deleteOne, if_neg h1]
        show (match lookupFM tree d.Path with
          | none => (st, tree)
          | some info => _) = _
        rw [hlk d (List.mem_cons_self d rest) h2]
        simp [hdry]
      rw [hstep]
      by_cases hD : d.IsDir
      · rw [if_pos hD, ih _ hrest]
        have hX : extraneousFiles src (d :: rest) = extraneousFiles src rest := by
          have hnone : lookupFM src d.Path = none := by
            cases hsrc : lookupFM src d.Path with
            | none => rfl
            | some v => rw [hsrc] at h2; cases h2
          simp [extraneousFiles, List.filter_cons, hnone, hD]
        rw [previewDeleteStats, previewDeleteStats, hX]
      · have hD2 : d.IsDir = false := by simpa using hD
        have hnone : lookupFM src d.Path = none := by
          cases hsrc : lookupFM src d.Path with
          | none => rfl
          | some v => rw [hsrc] at h2; cases h2
        rw [if_neg hD, ih _ hrest]
        have hX : extraneousFiles src (d :: rest) = d :: extraneousFiles src rest := by
          simp [extraneousFiles, List.filter_cons, hnone, hD2]
        cases st
        simp only [previewDeleteStats, incrementFileToDelete, hX, List.length_cons,
          sumSizes_cons, Prod.mk.injEq, Stats.mk.injEq, true_and, and_true]
        omega

/-- A dry-run deletion pass never mutates the tree, and only the to-delete
counters move. -/
theorem deleteExtraFiles_dry_preserve (s : Options) (env : Env) (src : List FileInfo)
    (L : List FileInfo) (acc : Stats × List FileInfo) (hdry : s.DryRun = true) :
    (deleteExtraFiles s env src L acc).2 = acc.2 ∧
    (deleteExtraFiles s env src L acc).1.FilesChecked = acc.1.FilesChecked ∧
    (deleteExtraFiles s env src L acc).1.FilesCopied = acc.1.FilesCopied ∧
    (deleteExtraFiles s env src L acc).1.FilesDeleted = acc.1.FilesDeleted ∧
    (deleteExtraFiles s env src L acc).1.BytesCopied = acc.1.BytesCopied ∧
    (deleteExtraFiles s env src L acc).1.BytesDeleted = acc.1.BytesDeleted ∧
    (deleteExtraFiles s env src L acc).1.DirsCreated = acc.1.DirsCreated ∧
    (deleteExtraFiles s env src L acc).1.Errors = acc.1.Errors ∧
    (deleteExtraFiles s env src L acc).1.FilesToCopy = acc.1.FilesToCopy ∧
    (deleteExtraFiles s env src L acc).1.BytesToCopy = acc.1.BytesToCopy ∧
    (deleteExtraFiles s env src L acc).1.DirsToCreate = acc.1.DirsToCreate := by
  induction L generalizing acc with
  | nil => exact ⟨rfl, rfl, rfl, rfl, rfl, rfl, rfl, rfl, rfl, rfl, rfl⟩
  | cons d rest ih =>
    rw [deleteExtraFiles]
    have hstep : (deleteOne s env src d acc).2 = acc.2 ∧
        (deleteOne s env src d acc).1.FilesChecked = acc.1.FilesChecked ∧
        (deleteOne s env src d acc).1.FilesCopied = acc.1.FilesCopied ∧
        (deleteOne s env src d acc).1.FilesDeleted = acc.1.FilesDeleted ∧
        (deleteOne s env src d acc).1.BytesCopied = acc.1.BytesCopied ∧
        (deleteOne s env src d acc).1.BytesDeleted = acc.1.BytesDeleted ∧
        (deleteOne s env src d acc).1.DirsCreated = acc.1.DirsCreated ∧
        (deleteOne s env src d acc).1.Errors = acc.1.Errors ∧
        (deleteOne s env src d acc).1.FilesToCopy = acc.1.FilesToCopy ∧
        (deleteOne s env src d acc).1.BytesToCopy = acc.1.BytesToCopy ∧
        (deleteOne s env src d acc).1.DirsToCreate = acc.1.DirsToCreate := by
      rw [deleteOne]
      split_ifs with h1
      · exact ⟨rfl, rfl, rfl, rfl, rfl, rfl, rfl, rfl, rfl, rfl, rfl⟩
      · cases hL : lookupFM acc.2 d.Path with
        | none => exact ⟨rfl, rfl, rfl, rfl, rfl, rfl, rfl, rfl, rfl, rfl, rfl⟩
        | some info =>
          by_cases hD : info.IsDir <;>
            simp [hdry, hD, incrementFileToDelete]
    obtain ⟨ht, hr⟩ := And.intro hstep.1 hstep.2
    have := ih (deleteOne s env src d acc)
    exact ⟨this.1.trans ht,
      this.2.1.trans hr.1, this.2.2.1.trans hr.2.1, this.2.2.2.1.trans hr.2.2.1,
      this.2.2.2.2.1.trans hr.2.2.2.1, this.2.2.2.2.2.1.trans hr.2.2.2.2.1,
      this.2.2.2.2.2.2.1.trans hr.2.2.2.2.2.1, this.2.2.2.2.2.2.2.1.trans hr.2.2.2.2.2.2.1,
      this.2.2.2.2.2.2.2.2.1.trans hr.2.2.2.2.2.2.2.1,
      this.2.2.2.2.2.2.2.2.2.1.trans hr.2.2.2.2.2.2.2.2.1,
      this.2.2.2.2.2.2.2.2.2.2.trans hr.2.2.2.2.2.2.2.2.2⟩

/-! ### Orchestrator characterization -/

/-- The statistics/tree state a directory-flow `Sync` threads through the
copy pass and the optional deletion pass. -/
def dirSyncState (s : Options) (env : Env) (srcMap dm : List FileInfo) (st : Stats) :
    Stats × List FileInfo :=
  let r := processFiles s env dm srcMap
    (addChecked dm.length (addChecked srcMap.length st), dm)
  if s.Delete then deleteExtraFiles s env srcMap dm r else r

theorem Sync_some_eq (s : Options) (env : Env) (srcMap dm : List FileInfo)
    (dc : Bool) (st : Stats) :
    Sync s env (some srcMap) dc (some dm) st =
      ⟨none, (dirSyncState s env srcMap dm st).1,
        some (dirSyncState s env srcMap dm st).2⟩ := rfl

theorem Sync_none_eq (s : Options) (env : Env) (srcMap : List FileInfo) (st : Stats)
    (hdry : s.DryRun = false) :
    Sync s env (some srcMap) true none st =
      ⟨none, (dirSyncState s env srcMap [] st).1,
        some (dirSyncState s env srcMap [] st).2⟩ := by
  unfold Sync
  rw [hdry]
  rfl

/-- A comparator verdict of `false` presupposes a destination binding. -/
theorem shouldSync_false_lookup {s : Options} {e : FileInfo} {m : List FileInfo}
    (h : shouldSync s e m = false) : (lookupFM m e.Path).isSome = true := by
  unfold shouldSync at h
  cases hl : lookupFM m e.Path with
  | none => rw [hl] at h; cases h
  | some d => simp

/-- Two directory entries at the same path never need a sync. -/
theorem shouldSync_dir {s : Options} {e : FileInfo} {m : List FileInfo} {d : FileInfo}
    (hl : lookupFM m e.Path = some d) (hd : d.IsDir = true) (he : e.IsDir = true) :
    shouldSync s e m = false := by
  simp only [shouldSync, hl]
  rw [if_neg (by rw [hd, he]; simp), if_pos he]

/-- What the directory flow leaves at each source path. -/
theorem dirSyncState_lookup_src (s : Options) (env : Env)
    {srcMap dm : List FileInfo} (st : Stats)
    (hdry : s.DryRun = false) (hpf : ∀ p, env.pfail p = false)
    (htf : ∀ p, env.tfail p = false)
    (hnd : (pathsOf srcMap).Nodup) (hanc : AncestorClosed srcMap)
    (hwfD : ∀ d ∈ dm, d.Path ≠ [])
    {e : FileInfo} (he : e ∈ srcMap) :
    lookupFM (dirSyncState s env srcMap dm st).2 e.Path =
      if shouldSync s e dm then some (copyImage env e) else lookupFM dm e.Path := by
  unfold dirSyncState
  by_cases hDel : s.Delete
  · rw [if_pos hDel,
      deleteExtraFiles_src_preserved s env hanc dm hwfD _ (List.mem_map_of_mem _ he)]
    exact processFiles_lookup_mem s env dm _ hdry hpf htf hnd he
  · rw [if_neg hDel]
    exact processFiles_lookup_mem s env dm _ hdry hpf htf hnd he

/-- What the directory flow leaves at each path outside the source map:
nothing with deletion on, the old binding with deletion off. -/
theorem dirSyncState_lookup_extraneous (s : Options) (env : Env)
    {srcMap dm : List FileInfo} (st : Stats)
    (hdry : s.DryRun = false) (hdf : ∀ p, env.dfail p = false)
    {p : List String} (hp : p ∉ pathsOf srcMap) :
    lookupFM (dirSyncState s env srcMap dm st).2 p =
      if s.Delete then none else lookupFM dm p := by
  unfold dirSyncState
  by_cases hDel : s.Delete
  · rw [if_pos hDel, if_pos hDel]
    by_cases hin : p ∈ pathsOf dm
    · obtain ⟨d, hd, hdp⟩ := List.mem_map.mp hin
      rw [← hdp]
      refine deleteExtraFiles_removes s env srcMap dm _ hdry hdf hd ?_
      rw [hdp]
      have := (lookupFM_eq_none_iff srcMap p).mpr hp
      rw [this]
      rfl
    · refine deleteExtraFiles_none_preserved s env srcMap dm _ ?_
      show lookupFM (processFiles s env dm srcMap
        (addChecked dm.length (addChecked srcMap.length st), dm)).2 p = none
      rw [processFiles_lookup_notin s env dm srcMap _ hp]
      exact (lookupFM_eq_none_iff dm p).mpr hin
  · rw [if_neg hDel, if_neg hDel]
    exact processFiles_lookup_notin s env dm srcMap _ hp

/-! ### Claim C2 -/

/-- Claim C2: after a fault-free non-dry `Sync` between directory trees,
with the delete option the destination's path set equals the source's path
set exactly; without it every pre-existing destination binding at a path
absent from the source survives untouched. -/
theorem msync_C2 (s : Options) (env : Env) (srcMap dm : List FileInfo) (st : Stats)
    (hdry : s.DryRun = false)
    (hpf : ∀ p, env.pfail p = false) (htf : ∀ p, env.tfail p = false)
    (hdf : ∀ p, env.dfail p = false)
    (hnd : (pathsOf srcMap).Nodup) (hanc : AncestorClosed srcMap)
    (hwfD : ∀ d ∈ dm, d.Path ≠ []) :
    (s.Delete = true →
      ∀ p, p ∈ pathsOf ((Sync s env (some srcMap) true (some dm) st).dest.getD [])
        ↔ p ∈ pathsOf srcMap) ∧
    (s.Delete = false →
      ∀ p, p ∉ pathsOf srcMap →
        lookupFM ((Sync s env (some srcMap) true (some dm) st).dest.getD []) p
          = lookupFM dm p) := by
  have hT : (Sync s env (some srcMap) true (some dm) st).dest.getD [] =
      (dirSyncState s env srcMap dm st).2 := rfl
  rw [hT]
  constructor
  · intro hDel p
    rw [← lookupFM_isSome_iff]
    constructor
    · intro hsome
      by_contra hp
      have := @dirSyncState_lookup_extraneous s env srcMap dm st hdry hdf p hp
      rw [hDel] at this
      simp only [if_pos] at this
      rw [this] at hsome
      cases hsome
    · intro hp
      obtain ⟨e, he, hep⟩ := List.mem_map.mp hp
      rw [← hep]
      rw [dirSyncState_lookup_src s env st hdry hpf htf hnd hanc hwfD he]
      by_cases hq : shouldSync s e dm
      · rw [if_pos hq]
        rfl
      · rw [if_neg hq]
        exact shouldSync_false_lookup (by simpa using hq)
  · intro hDel p hp
    have := @dirSyncState_lookup_extraneous s env srcMap dm st hdry hdf p hp
    rw [hDel] at this
    simpa using this

/-- Witness for C2 (delete on): the stale path `b` is gone and the source
path `a` is present after the sync. -/
theorem msync_C2_witness :
    (["b"] ∈ pathsOf ((Sync ⟨false, false, true, true, "mtime", false⟩ noFailEnv
        (some [⟨["a"], 10, 5, "", false⟩]) true
        (some [⟨["b"], 7, 1, "", false⟩]) Stats.empty).dest.getD []) ↔
      ["b"] ∈ pathsOf [⟨["a"], 10, 5, "", false⟩]) ∧
    (["a"] ∈ pathsOf ((Sync ⟨false, false, true, true, "mtime", false⟩ noFailEnv
        (some [⟨["a"], 10, 5, "", false⟩]) true
        (some [⟨["b"], 7, 1, "", false⟩]) Stats.empty).dest.getD []) ↔
      ["a"] ∈ pathsOf [⟨["a"], 10, 5, "", false⟩]) :=
  ⟨(msync_C2 ⟨false, false, true, true, "mtime", false⟩ noFailEnv
      [⟨["a"], 10, 5, "", false⟩] [⟨["b"], 7, 1, "", false⟩] Stats.empty rfl
      (fun _ => rfl) (fun _ => rfl) (fun _ => rfl) (by decide) (by decide)
      (by decide)).1 rfl ["b"],
   (msync_C2 ⟨false, false, true, true, "mtime", false⟩ noFailEnv
      [⟨["a"], 10, 5, "", false⟩] [⟨["b"], 7, 1, "", false⟩] Stats.empty rfl
      (fun _ => rfl) (fun _ => rfl) (fun _ => rfl) (by decide) (by decide)
      (by decide)).1 rfl ["a"]⟩

/-! ### Claim C8 -/

/-- After a fault-free first run, no source entry needs syncing against the
resulting destination tree. -/
theorem dirSyncState_stable (s : Options) (env : Env)
    {srcMap dm : List FileInfo} (st : Stats)
    (hdry : s.DryRun = false) (hpf : ∀ p, env.pfail p = false)
    (htf : ∀ p, env.tfail p = false)
    (hnd : (pathsOf srcMap).Nodup) (hanc : AncestorClosed srcMap)
    (hwfD : ∀ d ∈ dm, d.Path ≠ [])
    {e : FileInfo} (he : e ∈ srcMap) :
    shouldSync s e (dirSyncState s env srcMap dm st).2 = false := by
  have hch := dirSyncState_lookup_src s env st hdry hpf htf hnd hanc hwfD he
  by_cases hq : shouldSync s e dm
  · rw [if_pos hq] at hch
    by_cases hD : e.IsDir
    · have himg : copyImage env e = mkDirInfo e.Path env.now := by
        rw [copyImage, if_pos hD]
      rw [himg] at hch
      exact shouldSync_dir hch rfl hD
    · have hD2 : e.IsDir = false := by simpa using hD
      rw [copyImage_file hD2] at hch
      exact shouldSync_self s e hch rfl rfl rfl rfl
  · rw [if_neg hq] at hch
    rw [shouldSync_congr s e hch]
    simpa using hq

/-- Claim C8: running `Sync(A, B)` twice with an unchanged source and a
fault-free first run performs zero copies, zero directory creations and
zero deletions on the second run (for every comparison method, hence in
particular `mtime`, `size` and `checksum`), and leaves the destination tree
exactly as the first run left it. -/
theorem msync_C8 (s : Options) (env : Env) (srcMap : List FileInfo)
    (dest0 : Option (List FileInfo)) (st : Stats)
    (hdry : s.DryRun = false)
    (hpf : ∀ p, env.pfail p = false) (htf : ∀ p, env.tfail p = false)
    (hdf : ∀ p, env.dfail p = false)
    (hnd : (pathsOf srcMap).Nodup) (hanc : AncestorClosed srcMap)
    (hwfD : ∀ dm, dest0 = some dm → ∀ d ∈ dm, d.Path ≠ []) :
    (Sync s env (some srcMap) true (Sync s env (some srcMap) true dest0 st).dest
        (Sync s env (some srcMap) true dest0 st).stats).stats.FilesCopied =
      (Sync s env (some srcMap) true dest0 st).stats.FilesCopied ∧
    (Sync s env (some srcMap) true (Sync s env (some srcMap) true dest0 st).dest
        (Sync s env (some srcMap) true dest0 st).stats).stats.BytesCopied =
      (Sync s env (some srcMap) true dest0 st).stats.BytesCopied ∧
    (Sync s env (some srcMap) true (Sync s env (some srcMap) true dest0 st).dest
        (Sync s env (some srcMap) true dest0 st).stats).stats.DirsCreated =
      (Sync s env (some srcMap) true dest0 st).stats.DirsCreated ∧
    (Sync s env (some srcMap) true (Sync s env (some srcMap) true dest0 st).dest
        (Sync s env (some srcMap) true dest0 st).stats).stats.FilesDeleted =
      (Sync s env (some srcMap) true dest0 st).stats.FilesDeleted ∧
    (Sync s env (some srcMap) true (Sync s env (some srcMap) true dest0 st).dest
        (Sync s env (some srcMap) true dest0 st).stats).stats.BytesDeleted =
      (Sync s env (some srcMap) true dest0 st).stats.BytesDeleted ∧
    (Sync s env (some srcMap) true (Sync s env (some srcMap) true dest0 st).dest
        (Sync s env (some srcMap) true dest0 st).stats).dest =
      (Sync s env (some srcMap) true dest0 st).dest := by
  -- Reduce the first run to its `dirSyncState` over the scanned (or empty)
  -- destination map.
  obtain ⟨dm, hrun1, hwf⟩ :
      ∃ dm, Sync s env (some srcMap) true dest0 st =
          ⟨none, (dirSyncState s env srcMap dm st).1,
            some (dirSyncState s env srcMap dm st).2⟩ ∧
        ∀ d ∈ dm, d.Path ≠ [] := by
    cases dest0 with
    | some dm => exact ⟨dm, Sync_some_eq s env srcMap dm true st, hwfD dm rfl⟩
    | none => exact ⟨[], Sync_none_eq s env srcMap st hdry, by intro d hd; cases hd⟩
  rw [hrun1]
  -- The tree and statistics the first run hands to the second.
  set T := (dirSyncState s env srcMap dm st).2 with hTdef
  set S1 := (dirSyncState s env srcMap dm st).1 with hS1def
  -- The second run's copy pass is empty ...
  have hall : ∀ e ∈ srcMap, shouldSync s e T = false := fun e he =>
    dirSyncState_stable s env st hdry hpf htf hnd hanc hwf he
  -- ... and its deletion pass (when enabled) finds nothing extraneous.
  have hnoextra : s.Delete = true → ∀ d ∈ T, (lookupFM srcMap d.Path).isSome = true := by
    intro hDel d hd
    by_cases hp : d.Path ∈ pathsOf srcMap
    · exact (lookupFM_isSome_iff srcMap d.Path).mpr hp
    · exfalso
      have hx := @dirSyncState_lookup_extraneous s env srcMap dm st hdry hdf d.Path hp
      rw [hDel, if_pos rfl, ← hTdef] at hx
      have hmem : d.Path ∈ pathsOf T := List.mem_map_of_mem _ hd
      rw [← lookupFM_isSome_iff, hx] at hmem
      cases hmem
  have hrun2 : dirSyncState s env srcMap T S1 =
      (addChecked T.length (addChecked srcMap.length S1), T) := by
    unfold dirSyncState
    rw [processFiles_none s env T hall]
    by_cases hDel : s.Delete
    · rw [if_pos hDel, deleteExtraFiles_noextra s env srcMap (hnoextra hDel) _]
    · rw [if_neg hDel]
  have hred : Sync s env (some srcMap) true
      (SyncOutcome.mk none S1 (some T)).dest (SyncOutcome.mk none S1 (some T)).stats =
      ⟨none, (dirSyncState s env srcMap T S1).1,
        some (dirSyncState s env srcMap T S1).2⟩ :=
    Sync_some_eq s env srcMap T true S1
  rw [hred, hrun2]
  exact ⟨rfl, rfl, rfl, rfl, rfl, rfl⟩

/-- Witness for C8: one source file synced twice into an initially missing
destination; the second run moves nothing. -/
theorem msync_C8_witness :
    (Sync ⟨false, false, true, true, "mtime", false⟩ noFailEnv
        (some [⟨["a"], 10, 5, "", false⟩]) true
        (Sync ⟨false, false, true, true, "mtime", false⟩ noFailEnv
          (some [⟨["a"], 10, 5, "", false⟩]) true none Stats.empty).dest
        (Sync ⟨false, false, true, true, "mtime", false⟩ noFailEnv
          (some [⟨["a"], 10, 5, "", false⟩]) true none Stats.empty).stats).stats.FilesCopied =
      (Sync ⟨false, false, true, true, "mtime", false⟩ noFailEnv
        (some [⟨["a"], 10, 5, "", false⟩]) true none Stats.empty).stats.FilesCopied :=
  (msync_C8 ⟨false, false, true, true, "mtime", false⟩ noFailEnv
    [⟨["a"], 10, 5, "", false⟩] none Stats.empty rfl
    (fun _ => rfl) (fun _ => rfl) (fun _ => rfl) (by decide) (by decide)
    (fun dm h => by cases h)).1

/-! ### Claim C3 -/

/-- The deletion pass never touches the copy counters, in any mode. -/
theorem deleteExtraFiles_copy_counters (s : Options) (env : Env) (src : List FileInfo)
    (L : List FileInfo) (acc : Stats × List FileInfo) :
    (deleteExtraFiles s env src L acc).1.FilesCopied = acc.1.FilesCopied ∧
    (deleteExtraFiles s env src L acc).1.BytesCopied = acc.1.BytesCopied ∧
    (deleteExtraFiles s env src L acc).1.DirsCreated = acc.1.DirsCreated ∧
    (deleteExtraFiles s env src L acc).1.FilesToCopy = acc.1.FilesToCopy ∧
    (deleteExtraFiles s env src L acc).1.BytesToCopy = acc.1.BytesToCopy ∧
    (deleteExtraFiles s env src L acc).1.DirsToCreate = acc.1.DirsToCreate ∧
    (deleteExtraFiles s env src L acc).1.FilesChecked = acc.1.FilesChecked := by
  induction L generalizing acc with
  | nil => exact ⟨rfl, rfl, rfl, rfl, rfl, rfl, rfl⟩
  | cons d rest ih =>
    rw [deleteExtraFiles]
    have hstep : (deleteOne s env src d acc).1.FilesCopied = acc.1.FilesCopied ∧
        (deleteOne s env src d acc).1.BytesCopied = acc.1.BytesCopied ∧
        (deleteOne s env src d acc).1.DirsCreated = acc.1.DirsCreated ∧
        (deleteOne s env src d acc).1.FilesToCopy = acc.1.FilesToCopy ∧
        (deleteOne s env src d acc).1.BytesToCopy = acc.1.BytesToCopy ∧
        (deleteOne s env src d acc).1.DirsToCreate = acc.1.DirsToCreate ∧
        (deleteOne s env src d acc).1.FilesChecked = acc.1.FilesChecked := by
      rw [deleteOne]
      by_cases h1 : (lookupFM src d.Path).isSome
      · rw [if_pos h1]
        exact ⟨rfl, rfl, rfl, rfl, rfl, rfl, rfl⟩
      · rw [if_neg h1]
        cases hL : lookupFM acc.2 d.Path with
        | none => exact ⟨rfl, rfl, rfl, rfl, rfl, rfl, rfl⟩
        | some info =>
          by_cases h2 : s.DryRun <;> by_cases h3 : env.dfail d.Path <;>
            by_cases hD : info.IsDir <;>
            simp [h2, h3, hD, incrementFileToDelete, incrementDeleted, addErrorS]
    have := ih (deleteOne s env src d acc)
    exact ⟨this.1.trans hstep.1, this.2.1.trans hstep.2.1,
      this.2.2.1.trans hstep.2.2.1, this.2.2.2.1.trans hstep.2.2.2.1,
      this.2.2.2.2.1.trans hstep.2.2.2.2.1,
      this.2.2.2.2.2.1.trans hstep.2.2.2.2.2.1,
      this.2.2.2.2.2.2.trans hstep.2.2.2.2.2.2⟩

/-- A dry-run directory-flow `Sync` leaves the destination tree in place
and never advances an actual-operation counter, whatever the endpoints'
existence. -/
theorem Sync_dry_counters (s : Options) (env : Env) (a : Option (List FileInfo))
    (dc : Bool) (b : Option (List FileInfo)) (st : Stats) (hdry : s.DryRun = true) :
    (Sync s env a dc b st).dest = b ∧
    (Sync s env a dc b st).stats.FilesCopied = st.FilesCopied ∧
    (Sync s env a dc b st).stats.BytesCopied = st.BytesCopied ∧
    (Sync s env a dc b st).stats.DirsCreated = st.DirsCreated ∧
    (Sync s env a dc b st).stats.FilesDeleted = st.FilesDeleted ∧
    (Sync s env a dc b st).stats.BytesDeleted = st.BytesDeleted := by
  have key : ∀ (src : List FileInfo) (st1 : Stats) (dm : List FileInfo),
      st1.FilesCopied = st.FilesCopied → st1.BytesCopied = st.BytesCopied →
      st1.DirsCreated = st.DirsCreated → st1.FilesDeleted = st.FilesDeleted →
      st1.BytesDeleted = st.BytesDeleted →
      ((if s.Delete then
          deleteExtraFiles s env src dm (processFiles s env dm src (st1, dm))
        else processFiles s env dm src (st1, dm)).2 = dm ∧
       (if s.Delete then
          deleteExtraFiles s env src dm (processFiles s env dm src (st1, dm))
        else processFiles s env dm src (st1, dm)).1.FilesCopied = st.FilesCopied ∧
       (if s.Delete then
          deleteExtraFiles s env src dm (processFiles s env dm src (st1, dm))
        else processFiles s env dm src (st1, dm)).1.BytesCopied = st.BytesCopied ∧
       (if s.Delete then
          deleteExtraFiles s env src dm (processFiles s env dm src (st1, dm))
        else processFiles s env dm src (st1, dm)).1.DirsCreated = st.DirsCreated ∧
       (if s.Delete then
          deleteExtraFiles s env src dm (processFiles s env dm src (st1, dm))
        else processFiles s env dm src (st1, dm)).1.FilesDeleted = st.FilesDeleted ∧
       (if s.Delete then
          deleteExtraFiles s env src dm (processFiles s env dm src (st1, dm))
        else processFiles s env dm src (st1, dm)).1.BytesDeleted = st.BytesDeleted) := by
    intro src st1 dm h1 h2 h3 h4 h5
    rw [processFiles_dryRun s env dm src st1 dm hdry]
    by_cases hDel : s.Delete
    · rw [if_pos hDel]
      have hp := deleteExtraFiles_dry_preserve s env src dm
        (previewStats s src dm st1, dm) hdry
      refine ⟨hp.1, ?_, ?_, ?_, ?_, ?_⟩
      · rw [hp.2.2.1]; exact h1
      · rw [hp.2.2.2.2.1]; exact h2
      · rw [hp.2.2.2.2.2.2.1]; exact h3
      · rw [hp.2.2.2.1]; exact h4
      · rw [hp.2.2.2.2.2.1]; exact h5
    · rw [if_neg hDel]
      exact ⟨rfl, h1, h2, h3, h4, h5⟩
  cases b with
  | some dm =>
    cases a with
    | some m =>
      have := key m (addChecked dm.length (addChecked m.length st)) dm rfl rfl rfl rfl rfl
      exact ⟨congrArg some this.1, this.2.1, this.2.2.1, this.2.2.2.1,
        this.2.2.2.2.1, this.2.2.2.2.2⟩
    | none =>
      have := key [] (addChecked dm.length
        (addErrorS "Error accessing source root" st)) dm rfl rfl rfl rfl rfl
      exact ⟨congrArg some this.1, this.2.1, this.2.2.1, this.2.2.2.1,
        this.2.2.2.2.1, this.2.2.2.2.2⟩
  | none =>
    cases a with
    | some m =>
      have hs : Sync s env (some m) dc none st =
          ⟨none,
            (let r := processFiles s env [] m (addChecked m.length st, [])
             let r2 := if s.Delete then deleteExtraFiles s env m [] r else r
             r2.1), none⟩ := by
        unfold Sync
        rw [hdry]
        rfl
      rw [hs]
      have := key m (addChecked m.length st) [] rfl rfl rfl rfl rfl
      exact ⟨rfl, this.2.1, this.2.2.1, this.2.2.2.1, this.2.2.2.2.1, this.2.2.2.2.2⟩
    | none =>
      have hs : Sync s env none dc none st =
          ⟨none,
            (let r := processFiles s env [] []
              (addErrorS "Error accessing source root" st, [])
             let r2 := if s.Delete then deleteExtraFiles s env ([] : List FileInfo) [] r else r
             r2.1), none⟩ := by
        unfold Sync
        rw [hdry]
        rfl
      rw [hs]
      have := key [] (addErrorS "Error accessing source root" st) [] rfl rfl rfl rfl rfl
      exact ⟨rfl, this.2.1, this.2.2.1, this.2.2.2.1, this.2.2.2.2.1, this.2.2.2.2.2⟩

theorem addChecked_zero (st : Stats) : addChecked 0 st = st := rfl

/-- A dry-run archive-to-archive sync only extracts nothing (the extractor
returns before touching the disk when `DryRun` is set), runs the inner sync
over the never-created temporary source directory — logging one soft error
— and skips rebuilding the destination archive. -/
theorem syncTarToTar_dryRun (s : Options) (env : Env)
    (c1 c2 : Option (List FileInfo)) (st : Stats) (hdry : s.DryRun = true) :
    syncTarToTar s env c1 c2 st =
      ⟨none, addErrorS "Error accessing source root" st, Endpoint.tarE c2⟩ := by
  have hex : ∀ c, extractTarToDirectory s c none = Except.ok none := by
    intro c
    unfold extractTarToDirectory
    rw [hdry]
    rfl
  have hinner : ∀ dx : Option (List FileInfo), dx = none ∨ dx = some [] →
      Sync { s with DryRun := false } env none true dx st =
        ⟨none, addErrorS "Error accessing source root" st, some []⟩ := by
    rintro dx (rfl | rfl) <;>
      · unfold Sync
        cases hDel : s.Delete <;>
          simp [hDel, processFiles, deleteExtraFiles, addChecked_zero]
  have hinner1 := hinner none (Or.inl rfl)
  have hinner2 := hinner (some []) (Or.inr rfl)
  cases c2 with
  | some c =>
    simp only [syncTarToTar, hex, hinner1]
    rw [if_pos hdry]
  | none =>
    simp only [syncTarToTar, hex, hinner2]
    rw [if_pos hdry]

/-- The preview counters of a `TopOutcome` did not move. -/
def toCountersUnchanged (r : TopOutcome) (st : Stats) : Prop :=
  r.stats.FilesToCopy = st.FilesToCopy ∧ r.stats.BytesToCopy = st.BytesToCopy ∧
  r.stats.DirsToCreate = st.DirsToCreate ∧ r.stats.FilesToDelete = st.FilesToDelete ∧
  r.stats.BytesToDelete = st.BytesToDelete

/-- Claim C3 is false on the code as soon as an archive endpoint is
involved: a dry-run TAR-to-TAR sync whose source archive holds one 10-byte
file that a real run would copy increments no preview counter at all
(`extractTarToDirectory` returns before extracting in dry-run, so the inner
sync sees an inaccessible temporary source), while the real run copies one
file — the dry run did not count "as if the operations had run". -/
theorem msync_C3_counterexample :
    (SyncTop ⟨false, true, true, false, "mtime", false⟩ noFailEnv true
        (Endpoint.tarE (some [⟨["a"], 10, 5, "", false⟩]))
        (Endpoint.tarE (some [])) Stats.empty).stats.FilesToCopy = 0 ∧
    (SyncTop ⟨false, false, true, false, "mtime", false⟩ noFailEnv true
        (Endpoint.tarE (some [⟨["a"], 10, 5, "", false⟩]))
        (Endpoint.tarE (some [])) Stats.empty).stats.FilesCopied = 1 := by
  exact ⟨rfl, rfl⟩

/-- Claim C3 amended: a dry-run `Sync` never mutates the destination
endpoint and never advances an actual-operation counter; in the plain
directory-to-directory flow the to-copy/to-create counters and byte totals
advance exactly as a fault-free real run advances the corresponding actual
counters, and the to-delete counters count exactly the extraneous
non-directory destination entries (when deletion is enabled); in
archive-involved flows no preview counter is incremented at all. -/
theorem msync_C3_amended (s : Options) (env : Env) (dc : Bool)
    (source destination : Endpoint) (st : Stats) (hdry : s.DryRun = true) :
    ((SyncTop s env dc source destination st).dest = destination) ∧
    ((SyncTop s env dc source destination st).stats.FilesCopied = st.FilesCopied ∧
     (SyncTop s env dc source destination st).stats.BytesCopied = st.BytesCopied ∧
     (SyncTop s env dc source destination st).stats.DirsCreated = st.DirsCreated ∧
     (SyncTop s env dc source destination st).stats.FilesDeleted = st.FilesDeleted ∧
     (SyncTop s env dc source destination st).stats.BytesDeleted = st.BytesDeleted) ∧
    (∀ a b, source = Endpoint.dirE (some a) → destination = Endpoint.dirE (some b) →
      (pathsOf b).Nodup →
      ((SyncTop s env dc source destination st).stats.FilesToCopy =
          st.FilesToCopy + (toCopyFiles s a b).length ∧
       (SyncTop s env dc source destination st).stats.BytesToCopy =
          st.BytesToCopy + sumSizes (toCopyFiles s a b) ∧
       (SyncTop s env dc source destination st).stats.DirsToCreate =
          st.DirsToCreate + (toCreateDirs s a b).length ∧
       (SyncTop { s with DryRun := false } noFailEnv dc source destination st).stats.FilesCopied =
          st.FilesCopied + (toCopyFiles s a b).length ∧
       (SyncTop { s with DryRun := false } noFailEnv dc source destination st).stats.BytesCopied =
          st.BytesCopied + sumSizes (toCopyFiles s a b) ∧
       (SyncTop { s with DryRun := false } noFailEnv dc source destination st).stats.DirsCreated =
          st.DirsCreated + (toCreateDirs s a b).length ∧
       (SyncTop s env dc source destination st).stats.FilesToDelete =
          st.FilesToDelete + (if s.Delete then (extraneousFiles a b).length else 0) ∧
       (SyncTop s env dc source destination st).stats.BytesToDelete =
          st.BytesToDelete + (if s.Delete then sumSizes (extraneousFiles a b) else 0))) ∧
    ((∀ c, source = Endpoint.tarE c →
        toCountersUnchanged (SyncTop s env dc source destination st) st) ∧
     (∀ c, destination = Endpoint.tarE c →
        toCountersUnchanged (SyncTop s env dc source destination st) st)) := by
  cases source with
  | dirE a0 =>
    cases destination with
    | dirE b0 =>
      have hdc := Sync_dry_counters s env a0 dc b0 st hdry
      refine ⟨?_, ⟨hdc.2.1, hdc.2.2.1, hdc.2.2.2.1, hdc.2.2.2.2.1, hdc.2.2.2.2.2⟩,
        ?_, fun c h => Endpoint.noConfusion h, fun c h => Endpoint.noConfusion h⟩
      · show Endpoint.dirE (Sync s env a0 dc b0 st).dest = Endpoint.dirE b0
        exact congrArg Endpoint.dirE hdc.1
      · intro a b hsa hsb hnd
        injection hsa with ha
        injection hsb with hb
        subst ha
        subst hb
        have hst2 : ∀ X : Stats, addChecked b.length (addChecked a.length X) = addChecked (a.length + b.length) X := by
          intro X
          cases X
          simp only [addChecked, Stats.mk.injEq, true_and, and_true]
          omega
        -- the dry run
        have hpr := processFiles_dryRun s env b a
          (addChecked b.length (addChecked a.length st)) b hdry
        by_cases hDel : s.Delete
        · have hlk : ∀ d ∈ b, (lookupFM a d.Path).isSome = false →
              lookupFM b d.Path = some d := fun d hd _ => lookupFM_self hnd hd
          have hdel := deleteExtraFiles_dryRun s env a b
            (previewStats s a b (addChecked b.length (addChecked a.length st))) b hdry hlk
          have hstate : dirSyncState s env a b st =
              (previewDeleteStats a b
                (previewStats s a b (addChecked b.length (addChecked a.length st))), b) := by
            unfold dirSyncState
            rw [hpr, if_pos hDel, hdel]
          have hDel2 : ({ s with DryRun := false } : Options).Delete = true := hDel
          have hcc := deleteExtraFiles_copy_counters { s with DryRun := false } noFailEnv a b
            (processFiles { s with DryRun := false } noFailEnv b a
              (addChecked b.length (addChecked a.length st), b))
          have hpr2 := processFiles_realRun { s with DryRun := false } noFailEnv b a
            (addChecked b.length (addChecked a.length st)) b rfl
            (fun _ => rfl) (fun _ => rfl)
          have hstate2 : (dirSyncState { s with DryRun := false } noFailEnv a b st).1.FilesCopied =
                st.FilesCopied + (toCopyFiles s a b).length ∧
              (dirSyncState { s with DryRun := false } noFailEnv a b st).1.BytesCopied =
                st.BytesCopied + sumSizes (toCopyFiles s a b) ∧
              (dirSyncState { s with DryRun := false } noFailEnv a b st).1.DirsCreated =
                st.DirsCreated + (toCreateDirs s a b).length := by
            unfold dirSyncState
            rw [if_pos hDel2]
            exact ⟨hcc.1.trans (by rw [hpr2]; rfl),
              hcc.2.1.trans (by rw [hpr2]; rfl),
              hcc.2.2.1.trans (by rw [hpr2]; rfl)⟩
          refine ⟨?_, ?_, ?_, hstate2.1, hstate2.2.1, hstate2.2.2, ?_, ?_⟩
          · show (dirSyncState s env a b st).1.FilesToCopy = _
            rw [hstate]
            rfl
          · show (dirSyncState s env a b st).1.BytesToCopy = _
            rw [hstate]
            rfl
          · show (dirSyncState s env a b st).1.DirsToCreate = _
            rw [hstate]
            rfl
          · show (dirSyncState s env a b st).1.FilesToDelete = _
            rw [hstate, if_pos hDel]
            rfl
          · show (dirSyncState s env a b st).1.BytesToDelete = _
            rw [hstate, if_pos hDel]
            rfl
        · have hstate : dirSyncState s env a b st =
              (previewStats s a b (addChecked b.length (addChecked a.length st)), b) := by
            unfold dirSyncState
            rw [hpr, if_neg hDel]
          have hDel2 : ¬ ({ s with DryRun := false } : Options).Delete = true := hDel
          have hpr2 := processFiles_realRun { s with DryRun := false } noFailEnv b a
            (addChecked b.length (addChecked a.length st)) b rfl
            (fun _ => rfl) (fun _ => rfl)
          have hstate2 : (dirSyncState { s with DryRun := false } noFailEnv a b st).1.FilesCopied =
                st.FilesCopied + (toCopyFiles s a b).length ∧
              (dirSyncState { s with DryRun := false } noFailEnv a b st).1.BytesCopied =
                st.BytesCopied + sumSizes (toCopyFiles s a b) ∧
              (dirSyncState { s with DryRun := false } noFailEnv a b st).1.DirsCreated =
                st.DirsCreated + (toCreateDirs s a b).length := by
            unfold dirSyncState
            rw [if_neg hDel2]
            exact ⟨by rw [hpr2]; rfl, by rw [hpr2]; rfl, by rw [hpr2]; rfl⟩
          refine ⟨?_, ?_, ?_, hstate2.1, hstate2.2.1, hstate2.2.2, ?_, ?_⟩
          · show (dirSyncState s env a b st).1.FilesToCopy = _
            rw [hstate]
            rfl
          · show (dirSyncState s env a b st).1.BytesToCopy = _
            rw [hstate]
            rfl
          · show (dirSyncState s env a b st).1.DirsToCreate = _
            rw [hstate]
            rfl
          · show (dirSyncState s env a b st).1.FilesToDelete = _
            rw [hstate, if_neg hDel]
            rfl
          · show (dirSyncState s env a b st).1.BytesToDelete = _
            rw [hstate, if_neg hDel]
            rfl
    | tarE c =>
      have hcr : createTarFromDirectory s a0 c = Except.ok c := by
        unfold createTarFromDirectory
        rw [if_pos hdry]
      have hR : SyncTop s env dc (Endpoint.dirE a0) (Endpoint.tarE c) st =
          ⟨none, st, Endpoint.tarE c⟩ := by
        simp only [SyncTop, hcr]
      rw [hR]
      exact ⟨rfl, ⟨rfl, rfl, rfl, rfl, rfl⟩,
        fun a b _ hsb => Endpoint.noConfusion hsb,
        fun c2 h => Endpoint.noConfusion h,
        fun c2 _ => ⟨rfl, rfl, rfl, rfl, rfl⟩⟩
  | tarE c1 =>
    cases destination with
    | dirE b0 =>
      have hex : extractTarToDirectory s c1 b0 = Except.ok b0 := by
        unfold extractTarToDirectory
        rw [if_pos hdry]
      have hR : SyncTop s env dc (Endpoint.tarE c1) (Endpoint.dirE b0) st =
          ⟨none, st, Endpoint.dirE b0⟩ := by
        simp only [SyncTop, hex]
      rw [hR]
      exact ⟨rfl, ⟨rfl, rfl, rfl, rfl, rfl⟩,
        fun a b hsa _ => Endpoint.noConfusion hsa,
        fun c2 _ => ⟨rfl, rfl, rfl, rfl, rfl⟩,
        fun c2 h => Endpoint.noConfusion h⟩
    | tarE c2 =>
      have hR : SyncTop s env dc (Endpoint.tarE c1) (Endpoint.tarE c2) st =
          ⟨none, addErrorS "Error accessing source root" st, Endpoint.tarE c2⟩ := by
        show syncTarToTar s env c1 c2 st = _
        exact syncTarToTar_dryRun s env c1 c2 st hdry
      rw [hR]
      exact ⟨rfl, ⟨rfl, rfl, rfl, rfl, rfl⟩,
        fun a b hsa _ => Endpoint.noConfusion hsa,
        fun c _ => ⟨rfl, rfl, rfl, rfl, rfl⟩,
        fun c _ => ⟨rfl, rfl, rfl, rfl, rfl⟩⟩

/-- Witness for the amended C3: a dry-run directory sync of one source
file into an empty destination leaves the destination untouched and
previews exactly the one copy the real run performs. -/
theorem msync_C3_amended_witness :
    (SyncTop ⟨false, true, true, false, "mtime", false⟩ noFailEnv true
        (Endpoint.dirE (some [⟨["a"], 10, 5, "", false⟩]))
        (Endpoint.dirE (some [])) Stats.empty).dest =
      Endpoint.dirE (some []) :=
  (msync_C3_amended ⟨false, true, true, false, "mtime", false⟩ noFailEnv true
    (Endpoint.dirE (some [⟨["a"], 10, 5, "", false⟩]))
    (Endpoint.dirE (some [])) Stats.empty rfl).1

/-! ### Claim C10

`deleteExtraFiles` ranges over `destFiles`, a Go `map[string]FileInfo`,
whose iteration order is unspecified and runtime-randomized.  The model
therefore treats the destination-scan list order as an arbitrary iteration
order and quantifies the claims over it: each list permutation is a
possible execution. -/

/-- Whether some other destination-scan entry strictly above `d` is itself
extraneous (and is therefore also removed — recursively — by the deletion
pass). -/
def hasExtraneousProperAncestor (src destFull : List FileInfo) (d : FileInfo) : Bool :=
  destFull.any (fun a =>
    !(lookupFM src a.Path).isSome && decide (a.Path <+: d.Path) &&
      !(decide (a.Path = d.Path)))

/-- The entries a fault-free non-dry deletion pass counts as deleted, as a
function of the iteration order: an extraneous entry is skipped when some
extraneous path visited earlier sits strictly above it (its recursive
removal already took the entry, so the stat fails), is removed silently
when it is a directory, and is removed and counted when it is a file. -/
def deletionsByOrder (src : List FileInfo) : List FileInfo → List (List String) → List FileInfo
  | [], _ => []
  | d :: rest, seen =>
    if (lookupFM src d.Path).isSome then deletionsByOrder src rest seen
    else if seen.any (fun r => decide (r <+: d.Path) && !(decide (r = d.Path))) then
      deletionsByOrder src rest (d.Path :: seen)
    else if d.IsDir then deletionsByOrder src rest (d.Path :: seen)
    else d :: deletionsByOrder src rest (d.Path :: seen)

/-- Only extraneous non-directories are ever counted, in every iteration
order. -/
theorem deletionsByOrder_spec (src : List FileInfo) :
    ∀ (L : List FileInfo) (seen : List (List String)),
      ∀ d ∈ deletionsByOrder src L seen,
        (lookupFM src d.Path).isSome = false ∧ d.IsDir = false := by
  intro L
  induction L with
  | nil => intro seen d hd; cases hd
  | cons h rest ih =>
    intro seen d hd
    rw [deletionsByOrder] at hd
    split_ifs at hd with h1 h2 h3
    · exact ih seen d hd
    · exact ih (h.Path :: seen) d hd
    · exact ih (h.Path :: seen) d hd
    · rcases List.mem_cons.mp hd with rfl | hd2
      · exact ⟨by simpa using h1, by simpa using h3⟩
      · exact ih (h.Path :: seen) d hd2

/-- An entry already sitting strictly below a seen extraneous path is never
counted: its stat keeps failing, in every continuation. -/
theorem deletionsByOrder_not_covered (src : List FileInfo) :
    ∀ (L : List FileInfo) (seen : List (List String)) (e : FileInfo),
      (∃ r ∈ seen, r <+: e.Path ∧ r ≠ e.Path) →
      e ∉ deletionsByOrder src L seen := by
  intro L
  induction L with
  | nil => intro seen e _ hmem; cases hmem
  | cons h rest ih =>
    intro seen e hcov hmem
    rw [deletionsByOrder] at hmem
    obtain ⟨r, hr, hrpre, hrne⟩ := hcov
    split_ifs at hmem with h1 h2 h3
    · exact ih seen e ⟨r, hr, hrpre, hrne⟩ hmem
    · exact ih (h.Path :: seen) e ⟨r, List.mem_cons_of_mem _ hr, hrpre, hrne⟩ hmem
    · exact ih (h.Path :: seen) e ⟨r, List.mem_cons_of_mem _ hr, hrpre, hrne⟩ hmem
    · rcases List.mem_cons.mp hmem with rfl | hmem2
      · exact h2 (List.any_eq_true.mpr ⟨r, hr, by simp [hrpre, hrne]⟩)
      · exact ih (h.Path :: seen) e
          ⟨r, List.mem_cons_of_mem _ hr, hrpre, hrne⟩ hmem2

/-- In an ancestors-first iteration order (the order `filepath.Walk` emits,
when the map range loop happens to follow it) no counted entry has an
extraneous entry strictly above it anywhere in the list: the ancestor is
visited earlier, its recursive removal takes the subtree, and the later
stat fails. -/
theorem deletionsByOrder_no_strict_ancestor (src : List FileInfo) :
    ∀ (L : List FileInfo) (seen : List (List String)),
      L.Pairwise (fun x y => ¬ y.Path <+: x.Path) →
      ∀ d ∈ deletionsByOrder src L seen,
        ∀ a ∈ L, (lookupFM src a.Path).isSome = false →
          a.Path <+: d.Path → a.Path = d.Path := by
  intro L
  induction L with
  | nil => intro seen _ d hd; cases hd
  | cons h rest ih =>
    intro seen hpw d hd a ha hext hpre
    have hpw_head := (List.pairwise_cons.mp hpw).1
    have hpw_tail := (List.pairwise_cons.mp hpw).2
    rw [deletionsByOrder] at hd
    split_ifs at hd with h1 h2 h3
    · rcases List.mem_cons.mp ha with rfl | ha2
      · rw [h1] at hext
        cases hext
      · exact ih seen hpw_tail d hd a ha2 hext hpre
    · rcases List.mem_cons.mp ha with rfl | ha2
      · by_contra hne
        exact deletionsByOrder_not_covered src rest (a.Path :: seen) d
          ⟨a.Path, List.mem_cons_self _ _, hpre, hne⟩ hd
      · exact ih (h.Path :: seen) hpw_tail d hd a ha2 hext hpre
    · rcases List.mem_cons.mp ha with rfl | ha2
      · by_contra hne
        exact deletionsByOrder_not_covered src rest (a.Path :: seen) d
          ⟨a.Path, List.mem_cons_self _ _, hpre, hne⟩ hd
      · exact ih (h.Path :: seen) hpw_tail d hd a ha2 hext hpre
    · rcases List.mem_cons.mp hd with rfl | hd2
      · rcases List.mem_cons.mp ha with rfl | ha2
        · rfl
        · exact absurd hpre (hpw_head a ha2)
      · rcases List.mem_cons.mp ha with rfl | ha2
        · by_contra hne
          exact deletionsByOrder_not_covered src rest (a.Path :: seen) d
            ⟨a.Path, List.mem_cons_self _ _, hpre, hne⟩ hd2
        · exact ih (h.Path :: seen) hpw_tail d hd2 a ha2 hext hpre

/-- The deleted-file/deleted-byte counters of a fault-free non-dry deletion
pass advance exactly by the order-dependent counted set, for every
iteration order. -/
theorem deleteFold_byOrder (s : Options) (env : Env) (src : List FileInfo)
    (hdry : s.DryRun = false) (hdf : ∀ p, env.dfail p = false) :
    ∀ (L : List FileInfo) (seen : List (List String)) (st : Stats) (tree : List FileInfo),
      (pathsOf L).Nodup →
      (∀ d ∈ L, (lookupFM src d.Path).isSome = false →
        lookupFM tree d.Path =
          if seen.any (fun r => decide (r <+: d.Path) && !(decide (r = d.Path))) then none
          else some d) →
      (deleteExtraFiles s env src L (st, tree)).1.FilesDeleted =
        st.FilesDeleted + (deletionsByOrder src L seen).length ∧
      (deleteExtraFiles s env src L (st, tree)).1.BytesDeleted =
        st.BytesDeleted + sumSizes (deletionsByOrder src L seen) := by
  intro L
  induction L with
  | nil => intro seen st tree _ _; exact ⟨rfl, rfl⟩
  | cons d L' ih =>
    intro seen st tree hnd hI
    have hnd1 : d.Path ∉ pathsOf L' := by
      rw [pathsOf, List.map_cons, List.nodup_cons] at hnd
      exact hnd.1
    have hnd2 : (pathsOf L').Nodup := by
      rw [pathsOf, List.map_cons, List.nodup_cons] at hnd
      exact hnd.2
    rw [deleteExtraFiles]
    by_cases hx : (lookupFM src d.Path).isSome
    · have hstep : deleteOne s env src d (st, tree) = (st, tree) := by
        rw [deleteOne, if_pos hx]
      rw [hstep, deletionsByOrder, if_pos hx]
      exact ih seen st tree hnd2
        (fun e he hex => hI e (List.mem_cons_of_mem _ he) hex)
    · have hx2 : (lookupFM src d.Path).isSome = false := by simpa using hx
      have hlkd := hI d (List.mem_cons_self d L') hx2
      by_cases hcov : seen.any
          (fun r => decide (r <+: d.Path) && !(decide (r = d.Path))) = true
      · rw [hcov, if_pos rfl] at hlkd
        have hstep : deleteOne s env src d (st, tree) = (st, tree) := by
          rw [deleteOne, if_neg hx, hlkd]
        rw [hstep, deletionsByOrder, if_neg hx, if_pos hcov]
        refine ih (d.Path :: seen) st tree hnd2 ?_
        intro e he hex
        have hIe := hI e (List.mem_cons_of_mem _ he) hex
        by_cases hdp : (decide (d.Path <+: e.Path) &&
            !(decide (d.Path = e.Path))) = true
        · have hdp0 := hdp
          rw [Bool.and_eq_true] at hdp0
          have hdpre : d.Path <+: e.Path := by simpa using hdp0.1
          have hdne : d.Path ≠ e.Path := by simpa using hdp0.2
          obtain ⟨r, hr, hrprops⟩ := List.any_eq_true.mp hcov
          rw [Bool.and_eq_true] at hrprops
          have hrpre : r <+: d.Path := by simpa using hrprops.1
          have hrne : r ≠ d.Path := by simpa using hrprops.2
          have hrpree : r <+: e.Path := List.IsPrefix.trans hrpre hdpre
          have hrnee : r ≠ e.Path := by
            intro hc
            rw [hc] at hrpre
            exact hdne (List.IsPrefix.eq_of_length hdpre
              (Nat.le_antisymm hdpre.length_le hrpre.length_le))
          have hold : seen.any
              (fun r => decide (r <+: e.Path) && !(decide (r = e.Path))) = true :=
            List.any_eq_true.mpr ⟨r, hr, by simp [hrpree, hrnee]⟩
          have hIe2 : lookupFM tree e.Path = none := hIe.trans (if_pos hold)
          have hnew : ((d.Path :: seen).any
              (fun r => decide (r <+: e.Path) && !(decide (r = e.Path)))) = true := by
            rw [List.any_cons]
            simp [hdpre, hdne]
          rw [if_pos hnew]
          exact hIe2
        · rw [List.any_cons]
          have hdp2 : (decide (d.Path <+: e.Path) &&
              !(decide (d.Path = e.Path))) = false := by simpa using hdp
          rw [hdp2, Bool.false_or]
          exact hIe
      · have hcov2 : seen.any
            (fun r => decide (r <+: d.Path) && !(decide (r = d.Path))) = false := by
          simpa using hcov
        rw [hcov2, if_neg (by simp)] at hlkd
        have hnc1 : ¬ (s.DryRun = true) := by rw [hdry]; simp
        have hnc2 : ¬ (env.dfail d.Path = true) := by rw [hdf d.Path]; simp
        have hstep : deleteOne s env src d (st, tree) =
            ((if d.IsDir then st else incrementDeleted d.Size st),
             removeAll d.Path tree) := by
          rw [deleteOne, if_neg hx]
          simp only [hlkd]
          rw [if_neg hnc1, if_neg hnc2]
        have hI2 : ∀ e ∈ L', (lookupFM src e.Path).isSome = false →
            lookupFM (removeAll d.Path tree) e.Path =
              if (d.Path :: seen).any
                  (fun r => decide (r <+: e.Path) && !(decide (r = e.Path))) then none
              else some e := by
          intro e he hex
          have hne : d.Path ≠ e.Path := fun hc =>
            hnd1 (hc ▸ List.mem_map_of_mem _ he)
          rw [lookupFM_removeAll, List.any_cons]
          by_cases hdp : d.Path <+: e.Path
          · rw [if_pos hdp]
            have : (decide (d.Path <+: e.Path) && !(decide (d.Path = e.Path))) = true := by
              simp [hdp, hne]
            rw [this, Bool.true_or, if_pos rfl]
          · rw [if_neg hdp]
            have : (decide (d.Path <+: e.Path) && !(decide (d.Path = e.Path))) = false := by
              simp [hdp]
            rw [this, Bool.false_or]
            exact hI e (List.mem_cons_of_mem _ he) hex
        by_cases hD : d.IsDir
        · rw [hstep, if_pos hD, deletionsByOrder, if_neg hx, if_neg (by rw [hcov2]; simp),
            if_pos hD]
          exact ih (d.Path :: seen) st (removeAll d.Path tree) hnd2 hI2
        · rw [hstep, if_neg hD, deletionsByOrder, if_neg hx, if_neg (by rw [hcov2]; simp),
            if_neg hD]
          have := ih (d.Path :: seen) (incrementDeleted d.Size st)
            (removeAll d.Path tree) hnd2 hI2
          constructor
          · rw [this.1]
            show st.FilesDeleted + 1 + _ = st.FilesDeleted + (_ + 1)
            omega
          · rw [this.2, sumSizes_cons]
            show st.BytesDeleted + d.Size + _ = st.BytesDeleted + (d.Size + _)
            omega

/-- Claim C10 is false as stated: the pass ranges over a Go map, whose
iteration order is unspecified, and in a child-before-parent order — a
legal iteration — the extraneous file `d/f` is visited while its
extraneous parent directory `d` still exists, so its stat succeeds, it is
removed individually and `incrementDeleted` fires; `d` is then removed
recursively.  A file inside a recursively-removed extraneous directory has
advanced the deleted-file and deleted-byte counters. -/
theorem msync_C10_counterexample :
    (deleteExtraFiles ⟨false, false, true, true, "mtime", false⟩ noFailEnv []
        [⟨["d", "f"], 4, 1, "", false⟩, ⟨["d"], 0, 1, "", true⟩]
        (Stats.empty,
          [⟨["d"], 0, 1, "", true⟩,
            ⟨["d", "f"], 4, 1, "", false⟩])).1.FilesDeleted = 1 ∧
    (deleteExtraFiles ⟨false, false, true, true, "mtime", false⟩ noFailEnv []
        [⟨["d", "f"], 4, 1, "", false⟩, ⟨["d"], 0, 1, "", true⟩]
        (Stats.empty,
          [⟨["d"], 0, 1, "", true⟩,
            ⟨["d", "f"], 4, 1, "", false⟩])).1.BytesDeleted = 4 ∧
    lookupFM (deleteExtraFiles ⟨false, false, true, true, "mtime", false⟩ noFailEnv []
        [⟨["d", "f"], 4, 1, "", false⟩, ⟨["d"], 0, 1, "", true⟩]
        (Stats.empty,
          [⟨["d"], 0, 1, "", true⟩,
            ⟨["d", "f"], 4, 1, "", false⟩])).2 ["d"] = none ∧
    lookupFM (deleteExtraFiles ⟨false, false, true, true, "mtime", false⟩ noFailEnv []
        [⟨["d", "f"], 4, 1, "", false⟩, ⟨["d"], 0, 1, "", true⟩]
        (Stats.empty,
          [⟨["d"], 0, 1, "", true⟩,
            ⟨["d", "f"], 4, 1, "", false⟩])).2 ["d", "f"] = none := by
  exact ⟨rfl, rfl, rfl, rfl⟩

/-- Claim C10 amended: in every iteration order, the deleted-file and
deleted-byte counters (and in dry-run the to-delete counters) advance only
for extraneous non-directory entries — a directory never advances them;
whether a file below a recursively-removed extraneous directory is counted
depends on the unspecified map iteration order (it is counted exactly when
it is visited before every extraneous path above it), and in an
ancestors-first iteration no counted entry lies below any extraneous
entry. -/
theorem msync_C10_amended (s : Options) (env : Env) (src destFiles : List FileInfo)
    (st : Stats) (tree : List FileInfo)
    (hdf : ∀ p, env.dfail p = false)
    (hnd : (pathsOf destFiles).Nodup)
    (hlk : ∀ d ∈ destFiles, (lookupFM src d.Path).isSome = false →
      lookupFM tree d.Path = some d) :
    (s.DryRun = false →
      (deleteExtraFiles s env src destFiles (st, tree)).1.FilesDeleted =
        st.FilesDeleted + (deletionsByOrder src destFiles []).length ∧
      (deleteExtraFiles s env src destFiles (st, tree)).1.BytesDeleted =
        st.BytesDeleted + sumSizes (deletionsByOrder src destFiles []) ∧
      (∀ d ∈ deletionsByOrder src destFiles [],
        (lookupFM src d.Path).isSome = false ∧ d.IsDir = false) ∧
      (AncestorsFirst destFiles →
        ∀ d ∈ deletionsByOrder src destFiles [],
          hasExtraneousProperAncestor src destFiles d = false)) ∧
    (s.DryRun = true →
      (deleteExtraFiles s env src destFiles (st, tree)).1.FilesToDelete =
        st.FilesToDelete + (extraneousFiles src destFiles).length ∧
      (deleteExtraFiles s env src destFiles (st, tree)).1.BytesToDelete =
        st.BytesToDelete + sumSizes (extraneousFiles src destFiles)) := by
  constructor
  · intro hdry
    have hcount := deleteFold_byOrder s env src hdry hdf destFiles [] st tree hnd
      (fun d hd hx => by
        rw [hlk d hd hx]
        rfl)
    refine ⟨hcount.1, hcount.2, fun d hd => deletionsByOrder_spec src destFiles [] d hd, ?_⟩
    intro haf d hd
    by_contra hc
    have hc2 : hasExtraneousProperAncestor src destFiles d = true := by simpa using hc
    obtain ⟨a, haF, hprops⟩ := List.any_eq_true.mp hc2
    rw [Bool.and_eq_true, Bool.and_eq_true] at hprops
    obtain ⟨⟨h1, h2⟩, h3⟩ := hprops
    have haExt : (lookupFM src a.Path).isSome = false := by simpa using h1
    have hapre : a.Path <+: d.Path := by simpa using h2
    have hane : a.Path ≠ d.Path := by simpa using h3
    exact hane
      (deletionsByOrder_no_strict_ancestor src destFiles [] haf d hd a haF haExt hapre)
  · intro hdry
    rw [deleteExtraFiles_dryRun s env src destFiles st tree hdry hlk]
    exact ⟨rfl, rfl⟩

/-- Witness for the amended C10: destination scan `d/` (extraneous
directory), `d/f` (extraneous file below it) and `g` (extraneous file) in
walk order: the pass counts exactly the order-dependent counted set, which
here is the single file `g`. -/
theorem msync_C10_amended_witness :
    (deleteExtraFiles ⟨false, false, true, true, "mtime", false⟩ noFailEnv []
        [⟨["d"], 0, 1, "", true⟩, ⟨["d", "f"], 4, 1, "", false⟩, ⟨["g"], 2, 1, "", false⟩]
        (Stats.empty,
          [⟨["d"], 0, 1, "", true⟩, ⟨["d", "f"], 4, 1, "", false⟩,
            ⟨["g"], 2, 1, "", false⟩])).1.FilesDeleted =
      Stats.empty.FilesDeleted +
        (deletionsByOrder []
          [⟨["d"], 0, 1, "", true⟩, ⟨["d", "f"], 4, 1, "", false⟩,
            ⟨["g"], 2, 1, "", false⟩] []).length ∧
    (deletionsByOrder []
        [⟨["d"], 0, 1, "", true⟩, ⟨["d", "f"], 4, 1, "", false⟩,
          ⟨["g"], 2, 1, "", false⟩] []).length = 1 :=
  ⟨((msync_C10_amended ⟨false, false, true, true, "mtime", false⟩ noFailEnv []
      [⟨["d"], 0, 1, "", true⟩, ⟨["d", "f"], 4, 1, "", false⟩, ⟨["g"], 2, 1, "", false⟩]
      Stats.empty
      [⟨["d"], 0, 1, "", true⟩, ⟨["d", "f"], 4, 1, "", false⟩, ⟨["g"], 2, 1, "", false⟩]
      (fun _ => rfl) (by decide) (by decide)).1 rfl).1,
   by decide⟩

end MSync
